import Mathlib

set_option autoImplicit false

/-!
Verification development for the i-Code V3 multimodal U-Net builder
(`core/models/openaimodel.py`).

The channel bookkeeping of `UNetModel2D.__init__` (encoder/`input_blocks`,
`middle_block`, decoder/`output_blocks`, skip-channel stack
`input_block_channels`) and the channel discipline of `UNetModel2D.forward`
are embedded as executable functions on `Nat`/`List`.

The tensor-level components (`ResBlock`, `TimestepEmbedSequential`,
`UNetModelVD.forward`, context merging, connector pooling/normalisation) are
embedded over a rational-valued tensor model: a tensor is a shape together
with a total map from integer multi-indices to `ℚ`.  External collaborator
layers (normalisation, SiLU, attention kernels) are opaque function
parameters with explicit channel metadata, while the parts the claims are
about (zero-initialised convolutions, skip connections, reshaping, mixing
weights, pooling, the per-sample modality dispatch) are explicit.
-/

/-! ### List helpers (Python list semantics) -/

/-- Python's `list.pop()`: remove and return the last element; `None` on an
empty list (the source raises `IndexError` there). -/
def popLast {α : Type} : List α → Option (α × List α)
  | [] => none
  | a :: rest =>
    match popLast rest with
    | none => some (a, [])
    | some (x, r) => some (x, a :: r)

/-- Python's `enumerate`, with an explicit start index. -/
def pyEnum {α : Type} : Nat → List α → List (Nat × α)
  | _, [] => []
  | i, a :: rest => (i, a) :: pyEnum (i + 1) rest

/-! ### Channel-level model of `UNetModel2D.__init__`

A layer is summarised by its declared (input-channel, output-channel) pair;
a `Block` is one `TimestepEmbedSequential` — the list of its layers'
channel pairs.  `SpatialTransformer`, `SpatioTemporalAttention`, `Upsample`
and `Downsample` all preserve the channel count; `ResBlock` maps its
`channels` to its `out_channels`. -/

abbrev Block := List (Nat × Nat)

/-- Configuration of `UNetModel2D.__init__` (the fields the channel model
depends on; `context_dim`, `num_heads` and the checkpoint flag do not affect
any channel count). -/
structure UNet2DCfg where
  input_channels : Nat
  model_channels : Nat
  output_channels : Nat
  num_noattn_blocks : List Nat
  channel_mult : List Nat
  with_attn : List Bool
  channel_mult_connector : List Nat
  num_noattn_blocks_connector : List Nat
  with_connector : List Bool
  use_video_architecture : Bool

/-- The connector tower loop of `UNetModel2D.__init__`: per level,
`num_noattn_blocks_connector[level_idx]` blocks each setting
`current_channel = mult * model_channels`, and a channel-preserving
`Downsample` between levels.  Returns `connector_out_channels`.  Indexing a
too-short `num_noattn_blocks_connector` is Python's `IndexError` (`none`). -/
def connectorLevels (mc : Nat) (nbc : List Nat) : List Nat → Nat → Nat → Option Nat
  | [], _, cur => some cur
  | m :: rest, i, cur =>
    match nbc.get? i with
    | none => none
    | some b =>
      let cur1 := match b with
        | 0 => cur
        | Nat.succ _ => m * mc
      connectorLevels mc nbc rest (i + 1) cur1

/-- The inner block loop of one encoder level: `b` blocks, each a `ResBlock`
from the running channel count to `mult * model_channels`, followed by a
channel-preserving `SpatialTransformer` when the level's attention flag is
set.  (With `use_video_architecture` the `ResBlock` is paired with a
channel-preserving `SpatioTemporalAttention`; the pair occupies the same
channel summary.)  Returns the produced blocks, the channel counts appended
to `input_block_channels`, and the final running channel count. -/
def encBlocksLoop (mc mult : Nat) (attn : Bool) : Nat → Nat → (List Block × List Nat × Nat)
  | 0, cur => ([], [], cur)
  | Nat.succ b, cur =>
    let c := mult * mc
    let blk : Block := (cur, c) :: (if attn then [(c, c)] else [])
    let res := encBlocksLoop mc mult attn b c
    (blk :: res.1, c :: res.2.1, res.2.2)

/-- One level's block loop inside the encoder loop of
`UNetModel2D.__init__` (over `enumerate(channel_mult)`).
`with_attn[level_idx]` and `with_connector[level_idx]` are indexed inside
the per-block loop of the source, hence only when the level has at least one
block (`b > 0`); indexing past the end of either flag list is Python's
`IndexError`. -/
def encLevelStep (mc m : Nat) (wa wc : List Bool) (i : Nat) :
    Nat → Nat → Option (List Block × List Nat × Nat)
  | 0, cur => some ([], [], cur)
  | Nat.succ b', cur =>
    match wa.get? i with
    | none => none
    | some attn =>
      match wc.get? i with
      | none => none
      | some _ => some (encBlocksLoop mc m attn (Nat.succ b') cur)

/-- The level recursion of the encoder loop: the per-level block loop, then
a channel-preserving `Downsample` block (its output channel count also
appended to `input_block_channels`) after every level but the last. -/
def encLevels (mc : Nat) (nb : List Nat) (wa wc : List Bool) :
    List Nat → Nat → Nat → Option (List Block × List Nat × Nat)
  | [], _, cur => some ([], [], cur)
  | m :: rest, i, cur =>
    match nb.get? i with
    | none => none
    | some b =>
      match encLevelStep mc m wa wc i b cur with
      | none => none
      | some (bs1, chs1, cur1) =>
        match encLevels mc nb wa wc rest (i + 1) cur1 with
        | none => none
        | some (bs3, chs3, cur3) =>
          some (bs1 ++ (if rest.isEmpty then [] else [[(cur1, cur1)]]) ++ bs3,
            chs1 ++ (if rest.isEmpty then [] else [cur1]) ++ chs3, cur3)

/-- The inner block loop of one decoder level, with `fuel` remaining
iterations (the level runs `num_noattn_blocks[level_idx] + 1` in total).
Each iteration pops `extra_channel` off the skip-channel stack and builds a
`ResBlock` from `current_channel + extra_channel` to
`model_channels * mult`, followed by a channel-preserving
`SpatialTransformer` when the attention flag is set, and by a
channel-preserving `Upsample` on the last iteration of every level except
level 0.  Returns (blocks, popped channel counts, final channel count,
remaining stack). -/
def decBlocksLoop (mc mult : Nat) (attn : Bool) (lvl : Nat) :
    Nat → Nat → List Nat → Option (List Block × List Nat × Nat × List Nat)
  | 0, cur, stack => some ([], [], cur, stack)
  | Nat.succ r, cur, stack =>
    match popLast stack with
    | none => none
    | some (extra, stack1) =>
      let c := mc * mult
      let blk : Block := (cur + extra, c) ::
        ((if attn then [(c, c)] else []) ++ (if lvl ≠ 0 ∧ r = 0 then [(c, c)] else []))
      match decBlocksLoop mc mult attn lvl r c stack1 with
      | none => none
      | some (bs, ps, fin, st) => some (blk :: bs, extra :: ps, fin, st)

/-- The decoder level loop of `UNetModel2D.__init__`, over
`list(enumerate(channel_mult))[::-1]`.  Each level indexes
`num_noattn_blocks`, `with_attn` and `with_connector` (all inside the
per-iteration loop, which always runs at least once). -/
def decLevels (mc : Nat) (nb : List Nat) (wa wc : List Bool) :
    List (Nat × Nat) → Nat → List Nat → Option (List Block × List Nat × Nat × List Nat)
  | [], cur, stack => some ([], [], cur, stack)
  | (i, m) :: rest, cur, stack =>
    match nb.get? i with
    | none => none
    | some b =>
      match wa.get? i with
      | none => none
      | some attn =>
        match wc.get? i with
        | none => none
        | some _ =>
          match decBlocksLoop mc m attn i (b + 1) cur stack with
          | none => none
          | some (bs1, ps1, cur1, stack1) =>
            match decLevels mc nb wa wc rest cur1 stack1 with
            | none => none
            | some (bs2, ps2, cur2, stack2) =>
              some (bs1 ++ bs2, ps1 ++ ps2, cur2, stack2)

/-- Result of `UNetModel2D.__init__` at the channel level. -/
structure Build2D where
  connectorOutChannels : Nat
  inputBlocks : List Block
  inputBlockChannels : List Nat
  middleBlock : Block
  outputBlocks : List Block
  popped : List Nat
  stackAfter : List Nat
  decCur : Nat
  outNormChannels : Nat
  outConvInChannels : Nat
  outConvOutChannels : Nat

/-- Channel-level embedding of `UNetModel2D.__init__`.  The initial
`nn.Conv2d(input_channels, model_channels, 3)` is the first input block and
`model_channels` the first entry of `input_block_channels`; the middle block
is `ResBlock`/`SpatialTransformer`/`ResBlock`, all at the deepest channel
count; `self.out` normalises over the decoder's final `current_channel` but
its zero-initialised convolution declares `model_channels` input channels
(source lines 749-752). -/
def UNetModel2D.build (cfg : UNet2DCfg) : Option Build2D :=
  let mc := cfg.model_channels
  match connectorLevels mc cfg.num_noattn_blocks_connector cfg.channel_mult_connector 0 (mc / 2) with
  | none => none
  | some conOut =>
    match encLevels mc cfg.num_noattn_blocks cfg.with_attn cfg.with_connector cfg.channel_mult 0 mc with
    | none => none
    | some (encBs, encChs, encCur) =>
      match decLevels mc cfg.num_noattn_blocks cfg.with_attn cfg.with_connector
          (pyEnum 0 cfg.channel_mult).reverse encCur (mc :: encChs) with
      | none => none
      | some (decBs, ps, decCur, stackAfter) =>
        some { connectorOutChannels := conOut
               inputBlocks := ([(cfg.input_channels, mc)] : Block) :: encBs
               inputBlockChannels := mc :: encChs
               middleBlock := [(encCur, encCur), (encCur, encCur), (encCur, encCur)]
               outputBlocks := decBs
               popped := ps
               stackAfter := stackAfter
               decCur := decCur
               outNormChannels := decCur
               outConvInChannels := mc
               outConvOutChannels := cfg.output_channels }

/-! ### Channel-level model of `UNetModel2D.forward` -/

/-- Run one `TimestepEmbedSequential` at the channel level: each layer
requires the incoming channel count to equal its declared input channels
(the shape assertion of the underlying convolution) and produces its
declared output channels. -/
def runBlock : Block → Nat → Option Nat
  | [], c => some c
  | (ci, co) :: rest, c => if c = ci then runBlock rest co else none

/-- The encoder loop of `UNetModel2D.forward`: `h = module(h, emb, context)`
then `hs.append(h)` for every input block. -/
def encFoldChannels : List Block → Nat × List Nat → Option (Nat × List Nat)
  | [], s => some s
  | blk :: rest, s =>
    match runBlock blk s.1 with
    | none => none
    | some h => encFoldChannels rest (h, s.2 ++ [h])

/-- The decoder loop of `UNetModel2D.forward`:
`h = th.cat([h, hs.pop()], dim=1)` (channel counts add along dim 1) then
`h = module(h, emb, context)` for every output block. -/
def decFoldChannels : List Block → Nat × List Nat → Option (Nat × List Nat)
  | [], s => some s
  | blk :: rest, s =>
    match popLast s.2 with
    | none => none
    | some (e, hs) =>
      match runBlock blk (s.1 + e) with
      | none => none
      | some h => decFoldChannels rest (h, hs)

/-- `UNetModel2D.forward` up to (excluding) the final `self.out` stage:
encoder pass, middle block, decoder pass with skip concatenation.  Returns
the final channel count and what remains of the `hs` stack. -/
def UNetModel2D.forwardCore (B : Build2D) (xCh : Nat) : Option (Nat × List Nat) :=
  match encFoldChannels B.inputBlocks (xCh, []) with
  | none => none
  | some (h, hs) =>
    match runBlock B.middleBlock h with
    | none => none
    | some h1 => decFoldChannels B.outputBlocks (h1, hs)

/-- Full `UNetModel2D.forward` at the channel level, including `self.out`:
`normalization(current_channel)` requires the incoming channels to equal the
decoder's final channel count, and the zero-initialised
`nn.Conv2d(model_channels, output_channels, 3)` requires them to equal
`model_channels`. -/
def UNetModel2D.forwardChannels (B : Build2D) (xCh : Nat) : Option Nat :=
  match UNetModel2D.forwardCore B xCh with
  | none => none
  | some (h, _) =>
    if h = B.outNormChannels then
      if h = B.outConvInChannels then some B.outConvOutChannels else none
    else none

/-! ### Rational-valued tensor model

A tensor is a shape (list of dimension sizes, `[batch, channel, ...]`) plus
a total map from integer multi-indices to `ℚ`.  Pointwise operations and
reindexings (the `einops.rearrange` calls of the source, concatenation along
dim 1, mean reduction, squeeze/unsqueeze) are explicit; activation,
normalisation and dropout are opaque collaborator functions. -/

@[ext]
structure Tensor where
  shape : List Nat
  data : List ℤ → ℚ

namespace Tensor

/-- Elementwise `+` (the source only adds same-shaped tensors here). -/
def add (x y : Tensor) : Tensor := ⟨x.shape, fun i => x.data i + y.data i⟩

/-- Tensor-times-scalar, `t * w` of the source. -/
def mulScalar (x : Tensor) (c : ℚ) : Tensor := ⟨x.shape, fun i => x.data i * c⟩

end Tensor

/-- `rearrange(x, 'b c t h w -> (b t) c h w')`: flatten the time axis of a
5-d video tensor into the batch axis. -/
def flattenVideo (x : Tensor) : Tensor :=
  let t := x.shape.getD 2 1
  ⟨[x.shape.getD 0 1 * t, x.shape.getD 1 1, x.shape.getD 3 1, x.shape.getD 4 1],
   fun idx =>
     match idx with
     | [bt, c, i, j] => x.data [bt / (t : ℤ), c, bt % (t : ℤ), i, j]
     | _ => 0⟩

/-- `rearrange(x, '(b t) c h w -> b c t h w', t=num_frames)`: restore the
time axis flattened into the batch axis. -/
def unflattenVideo (t : Nat) (x : Tensor) : Tensor :=
  ⟨[x.shape.getD 0 1 / t, x.shape.getD 1 1, t, x.shape.getD 2 1, x.shape.getD 3 1],
   fun idx =>
     match idx with
     | [b, c, ti, i, j] => x.data [b * (t : ℤ) + ti, c, i, j]
     | _ => 0⟩

/-- `emb.unsqueeze(1).repeat(1, T, 1)` followed by
`rearrange(emb, 'b t c -> (b t) c')`: broadcast a `[B, C]` embedding over
`T` frames. -/
def videoBroadcastEmb (t : Nat) (e : Tensor) : Tensor :=
  ⟨[e.shape.getD 0 1 * t, e.shape.getD 1 1],
   fun idx =>
     match idx with
     | [bt, c] => e.data [bt / (t : ℤ), c]
     | _ => 0⟩

/-- `context.unsqueeze(1).repeat(1, T, 1, 1)` followed by
`rearrange(context, 'b t n c -> (b t) n c')`. -/
def videoBroadcastCtx (t : Nat) (e : Tensor) : Tensor :=
  ⟨[e.shape.getD 0 1 * t, e.shape.getD 1 1, e.shape.getD 2 1],
   fun idx =>
     match idx with
     | [bt, n, c] => e.data [bt / (t : ℤ), n, c]
     | _ => 0⟩

/-- `th.cat([x, y], dim=1)`: concatenate along the channel axis. -/
def catChannels (x y : Tensor) : Tensor :=
  let cx := x.shape.getD 1 0
  ⟨x.shape.set 1 (cx + y.shape.getD 1 0),
   fun idx =>
     match idx with
     | n :: c :: rest => if c < (cx : ℤ) then x.data (n :: c :: rest)
                         else y.data (n :: (c - (cx : ℤ)) :: rest)
     | _ => 0⟩

/-- `x[:, :, None, None]` on a `[B, C]` tensor. -/
def unsqueezeLast2 (x : Tensor) : Tensor :=
  ⟨x.shape ++ [1, 1], fun idx => x.data idx.dropLast.dropLast⟩

/-- `x.squeeze(-1)`: drop the last axis when it has size 1. -/
def squeezeLast (x : Tensor) : Tensor :=
  if x.shape.getLast? = some 1 then ⟨x.shape.dropLast, fun idx => x.data (idx ++ [0])⟩
  else x

/-- `x.squeeze(-1).squeeze(-1)`. -/
def squeezeLast2 (x : Tensor) : Tensor := squeezeLast (squeezeLast x)

/-- `x.mean(k)`: mean over axis `k`. -/
def meanAxis (k : Nat) (x : Tensor) : Tensor :=
  let n := x.shape.getD k 1
  ⟨x.shape.eraseIdx k,
   fun idx => (Finset.sum (Finset.range n) fun ti => x.data (idx.take k ++ (ti : ℤ) :: idx.drop k)) / (n : ℚ)⟩

/-- `x.unsqueeze(k)`: insert a size-1 axis at position `k`. -/
def unsqueeze (k : Nat) (x : Tensor) : Tensor :=
  ⟨x.shape.insertIdx k 1, fun idx => x.data (idx.eraseIdx k)⟩

/-- Apply a pointwise function (the SiLU activation collaborator). -/
def pointwiseAct (f : ℚ → ℚ) (x : Tensor) : Tensor := ⟨x.shape, fun i => f (x.data i)⟩

/-- A 2-d convolution with 3×3 kernel and padding 1 (the `conv_nd(2, ...)`
collaborator), with explicit weights `w out in dy dx` and bias: spatial
extent is preserved, channel `cin` maps to `cout`. -/
def conv2dK (cin cout : Nat) (w : Nat → Nat → ℤ → ℤ → ℚ) (bias : Nat → ℚ) (x : Tensor) : Tensor :=
  ⟨x.shape.set 1 cout,
   fun idx =>
     match idx with
     | n :: c :: i :: j :: rest =>
       bias c.natAbs +
         Finset.sum (Finset.range cin) fun cc =>
           Finset.sum (Finset.range 3) fun di =>
             Finset.sum (Finset.range 3) fun dj =>
               w c.natAbs cc ((di : ℤ) - 1) ((dj : ℤ) - 1) *
                 x.data (n :: (cc : ℤ) :: (i + (di : ℤ) - 1) :: (j + (dj : ℤ) - 1) :: rest)
     | _ => 0⟩

/-- A 1×1 convolution (the channel-projection collaborator). -/
def conv1x1 (cin cout : Nat) (w : Nat → Nat → ℚ) (bias : Nat → ℚ) (x : Tensor) : Tensor :=
  ⟨x.shape.set 1 cout,
   fun idx =>
     match idx with
     | n :: c :: rest =>
       bias c.natAbs + Finset.sum (Finset.range cin) fun cc => w c.natAbs cc * x.data (n :: (cc : ℤ) :: rest)
     | _ => 0⟩

/-- The `linear` collaborator on a `[B, C]` tensor. -/
def linearT (cin cout : Nat) (w : Nat → Nat → ℚ) (bias : Nat → ℚ) (x : Tensor) : Tensor :=
  ⟨[x.shape.getD 0 1, cout],
   fun idx =>
     match idx with
     | [n, c] => bias c.natAbs + Finset.sum (Finset.range cin) fun j => w c.natAbs j * x.data [n, (j : ℤ)]
     | _ => 0⟩

/-- Modelled from the spec: the checkpointed-recompute utility
`checkpoint(fn, args, params, enabled)` of `diffusion_utils` (not part of
this file) is, per the spec's external-interface contract, a scoped wrapper
whose result is the plain application of `fn` to `args` whether or not
`enabled` is set — a memory/compute tradeoff only. -/
def checkpointedCall {α β γ : Type} (f : α → β) (args : α) (_params : γ) (_flag : Bool) : β :=
  f args

/-- `ResBlock.__init__`'s configuration and parameters.  `normIn`,
`normOut` (GroupNorm collaborators), `dropout`, and the up/down resampling
collaborators are opaque; both convolutions, the embedding projection and
the skip connection are explicit. -/
structure ResBlock where
  channels : Nat
  embChannels : Nat
  outChannels : Nat
  useScaleShift : Bool
  updown : Bool
  hUpd : Tensor → Tensor
  xUpd : Tensor → Tensor
  normIn : Tensor → Tensor
  act : ℚ → ℚ
  wIn : Nat → Nat → ℤ → ℤ → ℚ
  bIn : Nat → ℚ
  wEmb : Nat → Nat → ℚ
  bEmb : Nat → ℚ
  normOut : Tensor → Tensor
  dropout : Tensor → Tensor
  wOut : Nat → Nat → ℤ → ℤ → ℚ
  bOut : Nat → ℚ
  skipIdentity : Bool
  wSkip : Nat → Nat → ℚ
  bSkip : Nat → ℚ

/-- The skip path of a `ResBlock`: `nn.Identity()` when the channel count is
unchanged, else a channel projection (the source builds a 1×1 — or, with
`use_conv`, 3×3 — convolution; the 1×1 form is modelled, the claims do not
depend on the kernel size). -/
def ResBlock.skipConnection (rb : ResBlock) (x : Tensor) : Tensor :=
  if rb.skipIdentity then x else conv1x1 rb.channels rb.outChannels rb.wSkip rb.bSkip x

/-- `ResBlock._forward` (source lines 347-376): flatten a video input's time
axis into the batch axis; `in_layers` (norm, SiLU, conv) with the up/down
variant splitting off the final conv; project the embedding and broadcast it
(`emb_out[..., None]`); either scale-shift or additive injection; out layers
ending in the zero-initialisable convolution; add the skip path; restore the
time axis. -/
def ResBlock.fwd (rb : ResBlock) (x emb : Tensor) : Tensor :=
  let isVideo := x.shape.length = 5
  let t := x.shape.getD 2 1
  let x1 := if isVideo then flattenVideo x else x
  let inRest := fun u => pointwiseAct rb.act (rb.normIn u)
  let inConv := conv2dK rb.channels rb.outChannels rb.wIn rb.bIn
  let hx : Tensor × Tensor :=
    if rb.updown then
      (inConv (rb.hUpd (inRest x1)), rb.xUpd x1)
    else
      (inConv (inRest x1), x1)
  let embOut := linearT rb.embChannels
      (if rb.useScaleShift then 2 * rb.outChannels else rb.outChannels)
      rb.wEmb rb.bEmb (pointwiseAct rb.act emb)
  let h2 :=
    if rb.useScaleShift then
      let hn := rb.normOut hx.1
      let hss : Tensor := ⟨hn.shape, fun idx =>
        hn.data idx * (1 + embOut.data (idx.take 2)) +
          embOut.data (match idx with
                       | n :: c :: _ => [n, c + (rb.outChannels : ℤ)]
                       | l => l)⟩
      conv2dK rb.outChannels rb.outChannels rb.wOut rb.bOut (rb.dropout (pointwiseAct rb.act hss))
    else
      let hplus : Tensor := ⟨hx.1.shape, fun idx => hx.1.data idx + embOut.data (idx.take 2)⟩
      conv2dK rb.outChannels rb.outChannels rb.wOut rb.bOut
        (rb.dropout (pointwiseAct rb.act (rb.normOut hplus)))
  let out := Tensor.add (rb.skipConnection hx.2) h2
  if isVideo then unflattenVideo t out else out

/-- `ResBlock.forward` (source lines 335-344): `_forward` through the
checkpoint wrapper, gated by `self.use_checkpoint`. -/
def ResBlock.forward (rb : ResBlock) (useCheckpoint : Bool) (x emb : Tensor) : Tensor :=
  checkpointedCall (fun p : Tensor × Tensor => rb.fwd p.1 p.2) (x, emb) () useCheckpoint

/-- The stage kinds `TimestepEmbedSequential.forward` dispatches on:
`TimestepBlock` (ResBlock/FCBlock), `SpatialTransformer` (cross-attention),
`SpatioTemporalAttention`, the `VideoSequential`/`nn.ModuleList` pair of a
stage block with a temporal attention, and any plain transform. -/
inductive SeqLayer where
  | timestepBlock (f : Tensor → Option Tensor → Tensor)
  | spatialTransformer (f : Tensor → Option Tensor → Tensor)
  | temporalAttention (f : Tensor → Tensor)
  | paired (stageBlock : Tensor → Option Tensor → Tensor) (tempAttn : Tensor → Tensor)
  | plain (f : Tensor → Tensor)

/-- `TimestepEmbedSequential.forward` (source lines 57-89).  A 5-d input
fixes `is_video` and `num_frames` on entry; the embedding and context are
then broadcast over frames once.  `TimestepBlock`s get the embedding;
`SpatialTransformer`s get the (video-broadcast) context, with frames
flattened into batch around them; `SpatioTemporalAttention` gets the full
tensor; a `VideoSequential`/`ModuleList` pair runs `layer[0](x, emb)` then
`layer[1](x)`; plain layers run per-frame. -/
def TimestepEmbedSequential.fwd (layers : List SeqLayer) (x : Tensor)
    (emb context : Option Tensor) : Tensor :=
  let isVideo := x.shape.length = 5
  let t := x.shape.getD 2 1
  let embV := if isVideo then emb.map (videoBroadcastEmb t) else emb
  let ctxV := if isVideo then context.map (videoBroadcastCtx t) else context
  layers.foldl
    (fun cur layer =>
      match layer with
      | .timestepBlock f => f cur embV
      | .spatialTransformer f =>
        if isVideo then unflattenVideo t (f (flattenVideo cur) ctxV) else f cur context
      | .temporalAttention f => f cur
      | .paired fb fa => fa (fb cur embV)
      | .plain f =>
        if isVideo then unflattenVideo t (f (flattenVideo cur)) else f cur)
    x

/-! ### `UNetModelVD.forward` -/

/-- The context merging at the head of `UNetModelVD.forward` (source lines
1095-1100): three-way mix when `c2` and `c1` are both given, two-way mix
when only `c1` is, bare `c0` otherwise. -/
def mergeContext (c0 : Tensor) (c1 c2 : Option Tensor) (mixedRatio mixedRatioC2 : ℚ) : Tensor :=
  match c2, c1 with
  | some t2, some t1 =>
    Tensor.add (Tensor.add (c0.mulScalar (1 - mixedRatio - mixedRatioC2)) (t1.mulScalar mixedRatio))
      (t2.mulScalar mixedRatioC2)
  | _, _ =>
    match c1 with
    | some t1 => Tensor.add (c0.mulScalar mixedRatio) (t1.mulScalar (1 - mixedRatio))
    | none => c0

/-- The pooling of the connector output (source lines 1131-1135):
`mean(2).mean(2).mean(2).unsqueeze(1)` for a 5-d tensor,
`mean(2).mean(2).unsqueeze(1)` otherwise. -/
def vdPool (h : Tensor) : Tensor :=
  if h.shape.length = 5 then unsqueeze 1 (meanAxis 2 (meanAxis 2 (meanAxis 2 h)))
  else unsqueeze 1 (meanAxis 2 (meanAxis 2 h))

/-- The squared L2 norm along the last (feature) axis at a given index
prefix — `th.norm(v, dim=-1)` squared. -/
def sumSqLast (x : Tensor) (pid : List ℤ) : ℚ :=
  Finset.sum (Finset.range (x.shape.getLastD 0)) fun c => x.data (pid ++ [(c : ℤ)]) ^ 2

/-- `v / th.norm(v, dim=-1, keepdim=True)` with the per-sample norm values
supplied as `nrm` (broadcast along the last axis). -/
def divByNorm (x : Tensor) (nrm : List ℤ → ℚ) : Tensor :=
  ⟨x.shape, fun idx => x.data idx / nrm idx.dropLast⟩

/-- A computable stand-in for the external square root used by `th.norm`:
exact whenever numerator and denominator are perfect squares (in particular
`ratSqrt 0 = 0` and `ratSqrt 1 = 1`). -/
def ratSqrt (q : ℚ) : ℚ := (Nat.sqrt q.num.natAbs : ℚ) / (Nat.sqrt q.den : ℚ)

/-- Lines 1131-1136 of the source: pool the connector output and divide by
its last-axis L2 norm (norm modelled by `ratSqrt` of the squared norm). -/
def vdPoolNormalize (h : Tensor) : Tensor :=
  let p := vdPool h
  divByNorm p fun pid => ratSqrt (sumSqLast p pid)

/-- One modality tower as `UNetModelVD.forward` consumes it: the per-tower
time-embedding projection and the block lists built by the tower's
`__init__`, all value-level functions `(x, emb, context) ↦ x'`. -/
structure VDTower where
  timeEmbed : Tensor → Tensor
  connectersOut : List (Tensor → Tensor → Tensor → Tensor)
  inputBlocks : List (Tensor → Tensor → Tensor → Tensor)
  inputBlockConnectersIn : List (Option (Tensor → Tensor → Tensor))
  middleBlock : Tensor → Tensor → Tensor → Tensor
  outputBlocks : List (Tensor → Tensor → Tensor → Tensor)
  outputBlockConnectersIn : List (Option (Tensor → Tensor → Tensor))
  out : Tensor → Tensor

/-- `UNetModelVD`: the three towers plus the shared `timestep_embedding`
collaborator. -/
structure VDModel where
  unetImage : VDTower
  unetText : VDTower
  unetAudio : VDTower
  modelChannels : Nat
  timestepEmbedding : Tensor → Nat → Tensor

/-- Python-level failures of `UNetModelVD.forward`: the bare `raise` on an
unrecognised modality tag, `IndexError` from list indexing, `pop` from an
empty list, calling a `None` connector stage, and reading the never-assigned
`out` variable in the final projection loop. -/
inductive VDErr where
  | badModality
  | indexErr
  | popEmpty
  | noneCall
  | unboundOut
deriving DecidableEq

/-- Python `zip` over three lists (truncates to the shortest). -/
def zip3 {α β γ : Type} : List α → List β → List γ → List (α × β × γ)
  | a :: as, b :: bs, c :: cs => (a, b, c) :: zip3 as bs cs
  | _, _, _ => []

/-- The text-reshape loop (source lines 1113-1115): `for i in
range(len(xtype)): if xtype[i] == 'text': x[i] = x[i][:, :, None, None]`. -/
def reshapeTextLoop : List Tensor → List String → Except VDErr (List Tensor)
  | xs, [] => .ok xs
  | [], _ :: _ => .error .indexErr
  | xi :: xs, ty :: tys =>
    match reshapeTextLoop xs tys with
    | .error e => .error e
    | .ok rest => .ok ((if ty = "text" then unsqueezeLast2 xi else xi) :: rest)

/-- The per-sample dispatch of the connector loop (source lines 1122-1130):
route each sample by its modality tag, `raise` on anything unrecognised. -/
def conLoopSamples (fI fT fA : Tensor → Tensor → Tensor → Tensor)
    (embI embT embA ctx : Tensor) : List Tensor → List String → Except VDErr (List Tensor)
  | hs, [] => .ok hs
  | [], _ :: _ => .error .indexErr
  | h :: hs, ty :: tys =>
    match
      (if ty = "audio" then .ok (fA h embA ctx)
       else if ty = "video" ∨ ty = "image" then .ok (fI h embI ctx)
       else if ty = "text" then .ok (fT h embT ctx)
       else .error .badModality : Except VDErr Tensor) with
    | .error e => .error e
    | .ok h1 =>
      match conLoopSamples fI fT fA embI embT embA ctx hs tys with
      | .error e => .error e
      | .ok rest => .ok (h1 :: rest)

/-- The per-sample dispatch of the main encoder/middle/decoder loops
(source lines 1149-1157, 1173-1181, 1192-1201): route each sample by tag,
fetching `context[i]` (a two-element list) inside the matched branch;
`raise` otherwise. -/
def mainLoopSamples (fI fT fA : Tensor → Tensor → Tensor → Tensor)
    (embI embT embA : Tensor) (ctxList : List Tensor) :
    Nat → List Tensor → List String → Except VDErr (List Tensor)
  | _, hs, [] => .ok hs
  | _, [], _ :: _ => .error .indexErr
  | i, h :: hs, ty :: tys =>
    match
      (if ty = "audio" then
        match ctxList.get? i with
        | some ctx => .ok (fA h embA ctx)
        | none => .error .indexErr
       else if ty = "video" ∨ ty = "image" then
        match ctxList.get? i with
        | some ctx => .ok (fI h embI ctx)
        | none => .error .indexErr
       else if ty = "text" then
        match ctxList.get? i with
        | some ctx => .ok (fT h embT ctx)
        | none => .error .indexErr
       else .error .badModality : Except VDErr Tensor) with
    | .error e => .error e
    | .ok h1 =>
      match mainLoopSamples fI fT fA embI embT embA ctxList (i + 1) hs tys with
      | .error e => .error e
      | .ok rest => .ok (h1 :: rest)

/-- The per-sample connector-attention dispatch (source lines 1160-1168 and
1204-1212): each sample's tower-specific `..._con_in` stage (calling a
`None` entry is a `TypeError`), with that sample's pooled connector
embedding as context. -/
def conInSamples (gI gT gA : Option (Tensor → Tensor → Tensor)) (hcon : List Tensor) :
    Nat → List Tensor → List String → Except VDErr (List Tensor)
  | _, hs, [] => .ok hs
  | _, [], _ :: _ => .error .indexErr
  | i, h :: hs, ty :: tys =>
    match
      (match hcon.get? i with
       | none => .error .indexErr
       | some hc =>
         if ty = "audio" then
           match gA with | some g => .ok (g h hc) | none => .error .noneCall
         else if ty = "video" ∨ ty = "image" then
           match gI with | some g => .ok (g h hc) | none => .error .noneCall
         else if ty = "text" then
           match gT with | some g => .ok (g h hc) | none => .error .noneCall
         else .error .badModality : Except VDErr Tensor) with
    | .error e => .error e
    | .ok h1 =>
      match conInSamples gI gT gA hcon (i + 1) hs tys with
      | .error e => .error e
      | .ok rest => .ok (h1 :: rest)

/-- The per-sample body of the decoder loop (source lines 1192-1201):
`h[i] = th.cat([h[i], temp[i]], dim=1)` first, then the tag dispatch. -/
def decLoopSamples (fI fT fA : Tensor → Tensor → Tensor → Tensor)
    (embI embT embA : Tensor) (ctxList : List Tensor) (temp : List Tensor) :
    Nat → List Tensor → List String → Except VDErr (List Tensor)
  | _, hs, [] => .ok hs
  | _, [], _ :: _ => .error .indexErr
  | i, h :: hs, ty :: tys =>
    match
      (match temp.get? i with
       | none => .error .indexErr
       | some tp =>
         let hcat := catChannels h tp
         if ty = "audio" then
           match ctxList.get? i with
           | some ctx => .ok (fA hcat embA ctx)
           | none => .error .indexErr
         else if ty = "video" ∨ ty = "image" then
           match ctxList.get? i with
           | some ctx => .ok (fI hcat embI ctx)
           | none => .error .indexErr
         else if ty = "text" then
           match ctxList.get? i with
           | some ctx => .ok (fT hcat embT ctx)
           | none => .error .indexErr
         else .error .badModality : Except VDErr Tensor) with
    | .error e => .error e
    | .ok h1 =>
      match decLoopSamples fI fT fA embI embT embA ctxList temp (i + 1) hs tys with
      | .error e => .error e
      | .ok rest => .ok (h1 :: rest)

/-- The final per-modality output projection loop (source lines 1214-1228).
The `if/elif` chain has no `else`: an unrecognised tag leaves the local
`out` variable as it was — unassigned on the first sample (Python's
`UnboundLocalError`), or silently carrying the previous sample's output,
which is then appended. -/
def vdOutputLoop (outI outT outA : Tensor → Tensor) :
    Option Tensor → List Tensor → List String → Except VDErr (List Tensor)
  | _, _, [] => .ok []
  | _, [], _ :: _ => .error .indexErr
  | lastOut, h :: hs, ty :: tys =>
    let newOut : Option Tensor :=
      if ty = "video" then
        some (unflattenVideo (h.shape.getD 2 1) (outI (flattenVideo h)))
      else if ty = "image" then some (outI h)
      else if ty = "text" then some (squeezeLast2 (outT h))
      else if ty = "audio" then some (outA h)
      else lastOut
    match newOut with
    | none => .error .unboundOut
    | some o =>
      match vdOutputLoop outI outT outA (some o) hs tys with
      | .error e => .error e
      | .ok rest => .ok (o :: rest)

/-- The final output stage of `UNetModelVD.forward`. -/
def vdOutputStage (m : VDModel) (h : List Tensor) (xtype : List String) :
    Except VDErr (List Tensor) :=
  vdOutputLoop m.unetImage.out m.unetText.out m.unetAudio.out none h xtype

/-- The connector ("environment encoder") pass of `UNetModelVD.forward`
(source lines 1118-1130): fold the zipped `connecters_out` lists of the
three towers over the per-sample dispatch. -/
def connectorStage (m : VDModel) (xtype : List String) (embI embT embA ctx : Tensor)
    (x : List Tensor) : Except VDErr (List Tensor) :=
  (zip3 m.unetImage.connectersOut m.unetText.connectersOut m.unetAudio.connectersOut).foldlM
    (fun h f => conLoopSamples f.1 f.2.1 f.2.2 embI embT embA ctx h xtype) x

/-- The encoder pass of `UNetModelVD.forward` (source lines 1141-1170):
fold the zipped `input_blocks` and `input_block_connecters_in` of the three
towers, running the per-sample main dispatch, then — when the image tower's
entry is not `None` — the per-sample connector-attention dispatch, then
`hs.append(h)`. -/
def encoderStage (m : VDModel) (xtype : List String) (embI embT embA : Tensor)
    (ctxList : List Tensor) (hcon : List Tensor) (x : List Tensor) :
    Except VDErr (List Tensor × List (List Tensor)) :=
  (List.zip (zip3 m.unetImage.inputBlocks m.unetText.inputBlocks m.unetAudio.inputBlocks)
      (zip3 m.unetImage.inputBlockConnectersIn m.unetText.inputBlockConnectersIn
        m.unetAudio.inputBlockConnectersIn)).foldlM
    (fun s p => do
      let h ← mainLoopSamples p.1.1 p.1.2.1 p.1.2.2 embI embT embA ctxList 0 s.1 xtype
      let h ← match p.2.1 with
        | some _ => conInSamples p.2.1 p.2.2.1 p.2.2.2 hcon 0 h xtype
        | none => .ok h
      .ok (h, s.2 ++ [h]))
    (x, [])

/-- The decoder pass of `UNetModelVD.forward` (source lines 1184-1212):
fold the zipped `output_blocks` and `output_block_connecters_in`, popping
`temp = hs.pop()`, concatenating per sample, dispatching, then the optional
connector-attention stage. -/
def decoderStage (m : VDModel) (xtype : List String) (embI embT embA : Tensor)
    (ctxList : List Tensor) (hcon : List Tensor) (h0 : List Tensor)
    (hs0 : List (List Tensor)) : Except VDErr (List Tensor × List (List Tensor)) :=
  (List.zip (zip3 m.unetImage.outputBlocks m.unetText.outputBlocks m.unetAudio.outputBlocks)
      (zip3 m.unetImage.outputBlockConnectersIn m.unetText.outputBlockConnectersIn
        m.unetAudio.outputBlockConnectersIn)).foldlM
    (fun s p => do
      let (temp, hs) ← match popLast s.2 with
        | some z => (.ok z : Except VDErr (List Tensor × List (List Tensor)))
        | none => .error .popEmpty
      let h ← decLoopSamples p.1.1 p.1.2.1 p.1.2.2 embI embT embA ctxList temp 0 s.1 xtype
      let h ← match p.2.1 with
        | some _ => conInSamples p.2.1 p.2.2.1 p.2.2.2 hcon 0 h xtype
        | none => .ok h
      .ok (h, hs))
    (h0, hs0)

/-- `UNetModelVD.forward` (source lines 1092-1228).  Device placement
(`.cuda()` / `.to(...)`) is not modelled — the spec treats it as an
execution-context concern outside the computation. -/
def UNetModelVD.forward (m : VDModel) (x : List Tensor) (timesteps : Tensor)
    (c0 : Tensor) (c1 c2 : Option Tensor) (xtype : List String)
    (mixedRatio mixedRatioC2 : ℚ) : Except VDErr (List Tensor) := do
  let context := mergeContext c0 c1 c2 mixedRatio mixedRatioC2
  let tEmb := m.timestepEmbedding timesteps m.modelChannels
  let embI := m.unetImage.timeEmbed tEmb
  let embT := m.unetText.timeEmbed tEmb
  let embA := m.unetAudio.timeEmbed tEmb
  let x ← reshapeTextLoop x xtype
  let hcon ← connectorStage m xtype embI embT embA context x
  let hcon := hcon.map vdPoolNormalize
  let ctxList := [context, context]
  let s ← encoderStage m xtype embI embT embA ctxList hcon x
  let h ← mainLoopSamples m.unetImage.middleBlock m.unetText.middleBlock
    m.unetAudio.middleBlock embI embT embA ctxList 0 s.1 xtype
  let s2 ← decoderStage m xtype embI embT embA ctxList hcon h s.2
  vdOutputStage m s2.1 xtype

/-! ### Counting helpers for the builder lemmas -/

/-- Total number of encoder `ResBlock`s over a level segment of
`channel_mult` starting at level index `i`: `Σ num_noattn_blocks[i..]`. -/
def nbSumFrom (nb : List Nat) : Nat → List Nat → Nat
  | _, [] => 0
  | i, _ :: rest => nb.getD i 0 + nbSumFrom nb (i + 1) rest

/-- Total number of decoder pops over an (index, mult) level list:
`Σ (num_noattn_blocks[i] + 1)`. -/
def nbTotal (nb : List Nat) (pairs : List (Nat × Nat)) : Nat :=
  (pairs.map fun p => nb.getD p.1 0 + 1).sum

/-! ### Concrete configurations (witness inputs) -/

/-- A small two-level tower configuration. -/
def cfgW : UNet2DCfg :=
  { input_channels := 3, model_channels := 2, output_channels := 3
    num_noattn_blocks := [1, 1], channel_mult := [1, 2]
    with_attn := [true, false]
    channel_mult_connector := [1], num_noattn_blocks_connector := [1]
    with_connector := [true, false], use_video_architecture := false }

/-- `cfgW` with flag lists longer (length 3) than `channel_mult`
(length 2). -/
def cfgLongFlags : UNet2DCfg :=
  { cfgW with with_attn := [true, false, true], with_connector := [true, false, true] }

/-- `cfgW` with a flag list shorter (length 1) than `channel_mult`
(length 2). -/
def cfgShortFlags : UNet2DCfg :=
  { cfgW with with_attn := [true] }

/-- `cfgW` with `channel_mult` starting at 2, so the decoder's final width
is twice `model_channels`. -/
def cfgHeadTwo : UNet2DCfg :=
  { cfgW with channel_mult := [2, 4] }

/-- Witness `ResBlock`: 1→1 channels, identity collaborators, zero
parameters everywhere. -/
def rbW : ResBlock :=
  { channels := 1, embChannels := 1, outChannels := 1
    useScaleShift := false, updown := false
    hUpd := id, xUpd := id, normIn := id, act := id
    wIn := fun _ _ _ _ => 0, bIn := fun _ => 0
    wEmb := fun _ _ => 0, bEmb := fun _ => 0
    normOut := id, dropout := id
    wOut := fun _ _ _ _ => 0, bOut := fun _ => 0
    skipIdentity := true, wSkip := fun _ _ => 0, bSkip := fun _ => 0 }

/-- Witness input tensor, shape `[1, 1, 2, 2]`. -/
def xW : Tensor := ⟨[1, 1, 2, 2], fun _ => 1⟩

/-- Witness embedding tensor, shape `[1, 1]`. -/
def embW : Tensor := ⟨[1, 1], fun _ => 0⟩

/-- A concrete 5-d (video) tensor, identically zero. -/
def x5Ex : Tensor := ⟨[1, 1, 1, 1, 1], fun _ => 0⟩

/-- A concrete stage-block function doubling every entry (ignores the
embedding). -/
def stageBlockEx : Tensor → Option Tensor → Tensor :=
  fun t _ => ⟨t.shape, fun i => t.data i * 2⟩

/-- A concrete temporal-attention function adding 1 to every entry. -/
def tempAttnEx : Tensor → Tensor := fun t => ⟨t.shape, fun i => t.data i + 1⟩

/-- An all-zero `[1, 1, 1, 1]` tensor. -/
def zeroT : Tensor := ⟨[1, 1, 1, 1], fun _ => 0⟩

/-- An all-ones `[1, 1, 1, 1, 1]` video tensor. -/
def onesT5 : Tensor := ⟨[1, 1, 1, 1, 1], fun _ => 1⟩

/-- An all-ones `[1, 1, 1, 1]` tensor. -/
def onesT4 : Tensor := ⟨[1, 1, 1, 1], fun _ => 1⟩

/-- A tower whose stages are identity functions (for concrete runs of the
joint orchestrator). -/
def idTower : VDTower :=
  { timeEmbed := id, connectersOut := [], inputBlocks := []
    inputBlockConnectersIn := [], middleBlock := fun x _ _ => x
    outputBlocks := [], outputBlockConnectersIn := [], out := id }

/-- A minimal `UNetModelVD` made of identity towers. -/
def vdModelEx : VDModel :=
  { unetImage := idTower, unetText := idTower, unetAudio := idTower
    modelChannels := 1, timestepEmbedding := fun t _ => t }

/-! ### Lemmas: Python list semantics -/

theorem popLast_eq_none {α : Type} (l : List α) : popLast l = none ↔ l = [] := by
  cases l with
  | nil => simp [popLast]
  | cons a rest =>
    simp only [popLast]
    cases h : popLast rest <;> simp

theorem popLast_spec {α : Type} :
    ∀ (l r : List α) (x : α), popLast l = some (x, r) → r ++ [x] = l := by
  intro l
  induction l with
  | nil => intro r x h; simp [popLast] at h
  | cons a rest ih =>
    intro r x h
    simp only [popLast] at h
    cases hr : popLast rest with
    | none =>
      rw [hr] at h
      simp only [Option.some.injEq, Prod.mk.injEq] at h
      obtain ⟨hx, hr2⟩ := h
      subst hx; subst hr2
      have : rest = [] := (popLast_eq_none rest).mp hr
      simp [this]
    | some p =>
      obtain ⟨y, r'⟩ := p
      rw [hr] at h
      simp only [Option.some.injEq, Prod.mk.injEq] at h
      obtain ⟨hx, hr2⟩ := h
      subst hx; subst hr2
      simpa using ih _ _ hr

theorem popLast_concat {α : Type} :
    ∀ (l : List α) (a : α), popLast (l ++ [a]) = some (a, l) := by
  intro l
  induction l with
  | nil => intro a; simp [popLast]
  | cons c l ih => intro a; simp [popLast, ih]

theorem pyEnum_mem {α : Type} :
    ∀ (l : List α) (i j : Nat) (a : α), l.get? j = some a → (i + j, a) ∈ pyEnum i l := by
  intro l
  induction l with
  | nil => intro i j a h; simp at h
  | cons b l ih =>
    intro i j a h
    cases j with
    | zero => simp at h; simp [pyEnum, h]
    | succ j' =>
      simp only [List.get?] at h
      have := ih (i + 1) j' a h
      simp only [pyEnum, List.mem_cons]
      right
      have : (i + 1 + j', a) ∈ pyEnum (i + 1) l := this
      simpa [Nat.add_assoc, Nat.add_comm 1 j'] using this

theorem pyEnum_bounds {α : Type} :
    ∀ (l : List α) (i : Nat) (p : Nat × α), p ∈ pyEnum i l → i ≤ p.1 ∧ p.1 < i + l.length := by
  intro l
  induction l with
  | nil => intro i p h; simp [pyEnum] at h
  | cons b l ih =>
    intro i p h
    simp only [pyEnum, List.mem_cons] at h
    cases h with
    | inl h =>
      subst h
      constructor
      · exact Nat.le_refl _
      · simp only [List.length_cons]; omega
    | inr h =>
      have := ih (i + 1) p h
      simp only [List.length_cons]
      omega

theorem get?_some_of_lt {α : Type} :
    ∀ (l : List α) (i : Nat), i < l.length → ∃ a, l.get? i = some a := by
  intro l
  induction l with
  | nil => intro i h; simp at h
  | cons b l ih =>
    intro i h
    cases i with
    | zero => exact ⟨b, rfl⟩
    | succ j => exact ih j (by simpa using h)

theorem lt_of_get?_some {α : Type} :
    ∀ (l : List α) (i : Nat) (a : α), l.get? i = some a → i < l.length := by
  intro l
  induction l with
  | nil => intro i a h; simp at h
  | cons b l ih =>
    intro i a h
    cases i with
    | zero => simp
    | succ j => exact Nat.succ_lt_succ (ih j a h)

theorem getD_of_get? {α : Type} :
    ∀ (l : List α) (i : Nat) (a d : α), l.get? i = some a → l.getD i d = a := by
  intro l
  induction l with
  | nil => intro i a d h; simp at h
  | cons b l ih =>
    intro i a d h
    cases i with
    | zero => simp at h; simp [h]
    | succ j => simpa using ih j a d (by simpa using h)

/-! ### Lemmas: running blocks at the channel level -/

theorem runBlock_append :
    ∀ (l1 l2 : Block) (c : Nat),
      runBlock (l1 ++ l2) c =
        match runBlock l1 c with
        | none => none
        | some c' => runBlock l2 c' := by
  intro l1
  induction l1 with
  | nil => intro l2 c; simp [runBlock]
  | cons p l1 ih =>
    intro l2 c
    obtain ⟨ci, co⟩ := p
    by_cases h : c = ci
    · simp [runBlock, h, ih]
    · simp [runBlock, h]

theorem runBlock_ifPair (P : Prop) [Decidable P] (c : Nat) :
    runBlock (if P then [(c, c)] else []) c = some c := by
  split <;> simp [runBlock]

theorem encFoldChannels_append :
    ∀ (l1 l2 : List Block) (s : Nat × List Nat),
      encFoldChannels (l1 ++ l2) s =
        match encFoldChannels l1 s with
        | none => none
        | some s' => encFoldChannels l2 s' := by
  intro l1
  induction l1 with
  | nil => intro l2 s; simp [encFoldChannels]
  | cons blk l1 ih =>
    intro l2 s
    simp only [List.cons_append, encFoldChannels]
    cases h : runBlock blk s.1 <;> simp [ih]

theorem decFoldChannels_append :
    ∀ (l1 l2 : List Block) (s : Nat × List Nat),
      decFoldChannels (l1 ++ l2) s =
        match decFoldChannels l1 s with
        | none => none
        | some s' => decFoldChannels l2 s' := by
  intro l1
  induction l1 with
  | nil => intro l2 s; simp [decFoldChannels]
  | cons blk l1 ih =>
    intro l2 s
    simp only [List.cons_append, decFoldChannels]
    cases hp : popLast s.2 with
    | none => simp
    | some z =>
      cases hr : runBlock blk (s.1 + z.1) <;> simp [hr, ih]

/-! ### Lemmas: the decoder block loop -/

theorem decBlocksLoop_stack (mc mult : Nat) (attn : Bool) (lvl : Nat) :
    ∀ (fuel cur : Nat) (stack : List Nat) (bs : List Block) (ps st : List Nat) (fin : Nat),
      decBlocksLoop mc mult attn lvl fuel cur stack = some (bs, ps, fin, st) →
      st ++ ps.reverse = stack ∧ ps.length = fuel := by
  intro fuel
  induction fuel with
  | zero =>
    intro cur stack bs ps st fin h
    simp only [decBlocksLoop, Option.some.injEq, Prod.mk.injEq] at h
    obtain ⟨-, h2, -, h4⟩ := h
    subst h2; subst h4
    simp
  | succ r ih =>
    intro cur stack bs ps st fin h
    simp only [decBlocksLoop] at h
    split at h
    · simp at h
    · rename_i extra stack1 hp
      split at h
      · simp at h
      · rename_i bs' ps' fin' st' hd
        simp only [Option.some.injEq, Prod.mk.injEq] at h
        obtain ⟨-, h2, -, h4⟩ := h
        obtain ⟨ihs, ihl⟩ := ih _ _ _ _ _ _ hd
        constructor
        · rw [← h2, ← h4]
          have hpop := popLast_spec _ _ _ hp
          calc st' ++ (extra :: ps').reverse
              = (st' ++ ps'.reverse) ++ [extra] := by simp [List.reverse_cons]
            _ = stack1 ++ [extra] := by rw [ihs]
            _ = stack := hpop
        · rw [← h2]; simp [ihl]

theorem decBlocksLoop_sim (mc mult : Nat) (attn : Bool) (lvl : Nat) :
    ∀ (fuel cur : Nat) (stack : List Nat) (bs : List Block) (ps st : List Nat) (fin : Nat),
      decBlocksLoop mc mult attn lvl fuel cur stack = some (bs, ps, fin, st) →
      decFoldChannels bs (cur, stack) = some (fin, st) := by
  intro fuel
  induction fuel with
  | zero =>
    intro cur stack bs ps st fin h
    simp only [decBlocksLoop, Option.some.injEq, Prod.mk.injEq] at h
    obtain ⟨h1, -, h3, h4⟩ := h
    subst h1; subst h3; subst h4
    simp [decFoldChannels]
  | succ r ih =>
    intro cur stack bs ps st fin h
    simp only [decBlocksLoop] at h
    split at h
    · simp at h
    · rename_i extra stack1 hp
      split at h
      · simp at h
      · rename_i bs' ps' fin' st' hd
        simp only [Option.some.injEq, Prod.mk.injEq] at h
        obtain ⟨h1, -, h3, h4⟩ := h
        rw [← h1, ← h3, ← h4]
        have hrun : runBlock ((cur + extra, mc * mult) ::
            ((if attn then [(mc * mult, mc * mult)] else []) ++
              (if lvl ≠ 0 ∧ r = 0 then [(mc * mult, mc * mult)] else []))) (cur + extra) =
            some (mc * mult) := by
          simp only [runBlock, if_pos rfl]
          rw [runBlock_append, runBlock_ifPair]
          exact runBlock_ifPair _ _
        simp only [decFoldChannels, hp, hrun]
        exact ih _ _ _ _ _ _ hd

theorem decBlocksLoop_fin (mc mult : Nat) (attn : Bool) (lvl : Nat) :
    ∀ (fuel cur : Nat) (stack : List Nat) (bs : List Block) (ps st : List Nat) (fin : Nat),
      decBlocksLoop mc mult attn lvl fuel cur stack = some (bs, ps, fin, st) →
      fin = if fuel = 0 then cur else mc * mult := by
  intro fuel
  induction fuel with
  | zero =>
    intro cur stack bs ps st fin h
    simp only [decBlocksLoop, Option.some.injEq, Prod.mk.injEq] at h
    simp [h.2.2.1.symm]
  | succ r ih =>
    intro cur stack bs ps st fin h
    simp only [decBlocksLoop] at h
    split at h
    · simp at h
    · rename_i extra stack1 hp
      split at h
      · simp at h
      · rename_i bs' ps' fin' st' hd
        simp only [Option.some.injEq, Prod.mk.injEq] at h
        have hfin : fin = fin' := h.2.2.1.symm
        subst hfin
        have := ih _ _ _ _ _ _ hd
        cases r with
        | zero => simpa using this
        | succ r' => simpa using this

theorem decBlocksLoop_total (mc mult : Nat) (attn : Bool) (lvl : Nat) :
    ∀ (fuel cur : Nat) (stack : List Nat), fuel ≤ stack.length →
      ∃ (bs : List Block) (ps : List Nat) (fin : Nat) (st : List Nat),
        decBlocksLoop mc mult attn lvl fuel cur stack = some (bs, ps, fin, st) := by
  intro fuel
  induction fuel with
  | zero => intro cur stack _; exact ⟨[], [], cur, stack, rfl⟩
  | succ r ih =>
    intro cur stack hlen
    have hne : stack ≠ [] := by
      intro h; subst h; simp at hlen
    obtain ⟨a, l, hl⟩ : ∃ a l, stack = l ++ [a] := by
      refine ⟨stack.getLast hne, stack.dropLast, ?_⟩
      exact (List.dropLast_append_getLast hne).symm
    have hp : popLast stack = some (a, l) := by rw [hl]; exact popLast_concat l a
    have hlen1 : r ≤ l.length := by
      have : stack.length = l.length + 1 := by simp [hl]
      omega
    obtain ⟨bs, ps, fin, st, hd⟩ := ih (mc * mult) l hlen1
    exact ⟨((cur + a, mc * mult) ::
        ((if attn then [(mc * mult, mc * mult)] else []) ++
          (if lvl ≠ 0 ∧ r = 0 then [(mc * mult, mc * mult)] else []))) :: bs,
      a :: ps, fin, st, by simp only [decBlocksLoop, hp, hd]⟩

/-! ### Lemmas: the decoder level loop -/

theorem decLevels_stack (mc : Nat) (nb : List Nat) (wa wc : List Bool) :
    ∀ (pairs : List (Nat × Nat)) (cur : Nat) (stack : List Nat) (bs : List Block)
      (ps st : List Nat) (fin : Nat),
      decLevels mc nb wa wc pairs cur stack = some (bs, ps, fin, st) →
      st ++ ps.reverse = stack ∧ ps.length = nbTotal nb pairs := by
  intro pairs
  induction pairs with
  | nil =>
    intro cur stack bs ps st fin h
    simp only [decLevels, Option.some.injEq, Prod.mk.injEq] at h
    obtain ⟨-, h2, -, h4⟩ := h
    rw [← h2, ← h4]
    simp [nbTotal]
  | cons p rest ih =>
    obtain ⟨i, m⟩ := p
    intro cur stack bs ps st fin h
    simp only [decLevels] at h
    split at h
    · simp at h
    · rename_i b hb
      split at h
      · simp at h
      · rename_i attn ha
        split at h
        · simp at h
        · rename_i cflag hc
          split at h
          · simp at h
          · rename_i bs1 ps1 cur1 stack1 hd1
            split at h
            · simp at h
            · rename_i bs2 ps2 cur2 stack2 hd2
              simp only [Option.some.injEq, Prod.mk.injEq] at h
              obtain ⟨-, h2, -, h4⟩ := h
              obtain ⟨hs1, hl1⟩ := decBlocksLoop_stack mc m attn i _ _ _ _ _ _ _ hd1
              obtain ⟨hs2, hl2⟩ := ih _ _ _ _ _ _ hd2
              constructor
              · rw [← h2, ← h4]
                calc stack2 ++ (ps1 ++ ps2).reverse
                    = (stack2 ++ ps2.reverse) ++ ps1.reverse := by
                      simp [List.reverse_append, List.append_assoc]
                  _ = stack1 ++ ps1.reverse := by rw [hs2]
                  _ = stack := hs1
              · rw [← h2]
                have hgd : nb.getD i 0 = b := getD_of_get? _ _ _ _ hb
                simp only [List.length_append, hl1, hl2, nbTotal, List.map_cons,
                  List.sum_cons, hgd]

theorem decLevels_sim (mc : Nat) (nb : List Nat) (wa wc : List Bool) :
    ∀ (pairs : List (Nat × Nat)) (cur : Nat) (stack : List Nat) (bs : List Block)
      (ps st : List Nat) (fin : Nat),
      decLevels mc nb wa wc pairs cur stack = some (bs, ps, fin, st) →
      decFoldChannels bs (cur, stack) = some (fin, st) := by
  intro pairs
  induction pairs with
  | nil =>
    intro cur stack bs ps st fin h
    simp only [decLevels, Option.some.injEq, Prod.mk.injEq] at h
    obtain ⟨h1, -, h3, h4⟩ := h
    rw [← h1, ← h3, ← h4]
    simp [decFoldChannels]
  | cons p rest ih =>
    obtain ⟨i, m⟩ := p
    intro cur stack bs ps st fin h
    simp only [decLevels] at h
    split at h
    · simp at h
    · rename_i b hb
      split at h
      · simp at h
      · rename_i attn ha
        split at h
        · simp at h
        · rename_i cflag hc
          split at h
          · simp at h
          · rename_i bs1 ps1 cur1 stack1 hd1
            split at h
            · simp at h
            · rename_i bs2 ps2 cur2 stack2 hd2
              simp only [Option.some.injEq, Prod.mk.injEq] at h
              obtain ⟨h1, -, h3, h4⟩ := h
              rw [← h1, ← h3, ← h4]
              rw [decFoldChannels_append]
              rw [decBlocksLoop_sim mc m attn i _ _ _ _ _ _ _ hd1]
              exact ih _ _ _ _ _ _ hd2

theorem decLevels_mem (mc : Nat) (nb : List Nat) (wa wc : List Bool) :
    ∀ (pairs : List (Nat × Nat)) (cur : Nat) (stack : List Nat) (bs : List Block)
      (ps st : List Nat) (fin : Nat),
      decLevels mc nb wa wc pairs cur stack = some (bs, ps, fin, st) →
      ∀ p ∈ pairs, (nb.get? p.1).isSome ∧ (wa.get? p.1).isSome ∧ (wc.get? p.1).isSome := by
  intro pairs
  induction pairs with
  | nil => intro cur stack bs ps st fin h p hp; simp at hp
  | cons q rest ih =>
    obtain ⟨i, m⟩ := q
    intro cur stack bs ps st fin h p hp
    simp only [decLevels] at h
    split at h
    · simp at h
    · rename_i b hb
      split at h
      · simp at h
      · rename_i attn ha
        split at h
        · simp at h
        · rename_i cflag hc
          split at h
          · simp at h
          · rename_i bs1 ps1 cur1 stack1 hd1
            split at h
            · simp at h
            · rename_i bs2 ps2 cur2 stack2 hd2
              rcases List.mem_cons.mp hp with hp | hp
              · subst hp
                exact ⟨by simp only [hb, Option.isSome_some],
                  by simp only [ha, Option.isSome_some],
                  by simp only [hc, Option.isSome_some]⟩
              · exact ih _ _ _ _ _ _ hd2 p hp

theorem decLevels_fin (mc : Nat) (nb : List Nat) (wa wc : List Bool) :
    ∀ (pairs : List (Nat × Nat)) (i0 m0 cur : Nat) (stack : List Nat) (bs : List Block)
      (ps st : List Nat) (fin : Nat),
      decLevels mc nb wa wc (pairs ++ [(i0, m0)]) cur stack = some (bs, ps, fin, st) →
      fin = mc * m0 := by
  intro pairs
  induction pairs with
  | nil =>
    intro i0 m0 cur stack bs ps st fin h
    simp only [List.nil_append, decLevels] at h
    split at h
    · simp at h
    · rename_i b hb
      split at h
      · simp at h
      · rename_i attn ha
        split at h
        · simp at h
        · rename_i cflag hc
          split at h
          · simp at h
          · rename_i bs1 ps1 cur1 stack1 hd1
            simp only [Option.some.injEq, Prod.mk.injEq] at h
            have hfin : fin = cur1 := h.2.2.1.symm
            have := decBlocksLoop_fin mc m0 attn i0 _ _ _ _ _ _ _ hd1
            simp at this
            rw [hfin, this]
  | cons q rest ih =>
    obtain ⟨i, m⟩ := q
    intro i0 m0 cur stack bs ps st fin h
    simp only [List.cons_append, decLevels] at h
    split at h
    · simp at h
    · rename_i b hb
      split at h
      · simp at h
      · rename_i attn ha
        split at h
        · simp at h
        · rename_i cflag hc
          split at h
          · simp at h
          · rename_i bs1 ps1 cur1 stack1 hd1
            split at h
            · simp at h
            · rename_i bs2 ps2 cur2 stack2 hd2
              simp only [Option.some.injEq, Prod.mk.injEq] at h
              have hfin : fin = cur2 := h.2.2.1.symm
              rw [hfin]
              exact ih _ _ _ _ _ _ _ _ hd2

theorem decLevels_total (mc : Nat) (nb : List Nat) (wa wc : List Bool) :
    ∀ (pairs : List (Nat × Nat)) (cur : Nat) (stack : List Nat),
      (∀ p ∈ pairs, p.1 < nb.length ∧ p.1 < wa.length ∧ p.1 < wc.length) →
      nbTotal nb pairs ≤ stack.length →
      ∃ (bs : List Block) (ps st : List Nat) (fin : Nat),
        decLevels mc nb wa wc pairs cur stack = some (bs, ps, fin, st) := by
  intro pairs
  induction pairs with
  | nil => intro cur stack _ _; exact ⟨[], [], stack, cur, rfl⟩
  | cons q rest ih =>
    obtain ⟨i, m⟩ := q
    intro cur stack hmem htot
    obtain ⟨hbn, hwn, hcn⟩ := hmem (i, m) (List.mem_cons_self _ _)
    obtain ⟨b, hb⟩ := get?_some_of_lt nb i hbn
    obtain ⟨attn, ha⟩ := get?_some_of_lt wa i hwn
    obtain ⟨cflag, hc⟩ := get?_some_of_lt wc i hcn
    have hgd : nb.getD i 0 = b := getD_of_get? _ _ _ _ hb
    have htot' : nb.getD i 0 + 1 + nbTotal nb rest ≤ stack.length := by
      simpa [nbTotal] using htot
    have hfuel : b + 1 ≤ stack.length := by omega
    obtain ⟨bs1, ps1, cur1, stack1, hd1⟩ := decBlocksLoop_total mc m attn i (b + 1) cur stack hfuel
    obtain ⟨hs1, hl1⟩ := decBlocksLoop_stack mc m attn i _ _ _ _ _ _ _ hd1
    have hlen1 : stack1.length + (b + 1) = stack.length := by
      have := congrArg List.length hs1
      simpa [hl1] using this
    have htot2 : nbTotal nb rest ≤ stack1.length := by omega
    have hmem2 : ∀ p ∈ rest, p.1 < nb.length ∧ p.1 < wa.length ∧ p.1 < wc.length :=
      fun p hp => hmem p (List.mem_cons_of_mem _ hp)
    obtain ⟨bs2, ps2, stack2, cur2, hd2⟩ := ih cur1 stack1 hmem2 htot2
    exact ⟨bs1 ++ bs2, ps1 ++ ps2, stack2, cur2, by
      simp only [decLevels, hb, ha, hc, hd1, hd2]⟩

/-! ### Lemmas: the encoder loops -/

theorem encBlocksLoop_len (mc mult : Nat) (attn : Bool) :
    ∀ (b cur : Nat), (encBlocksLoop mc mult attn b cur).2.1.length = b := by
  intro b
  induction b with
  | zero => intro cur; simp [encBlocksLoop]
  | succ b ih => intro cur; simp [encBlocksLoop, ih]

theorem encBlocksLoop_sim (mc mult : Nat) (attn : Bool) :
    ∀ (b cur : Nat) (hs : List Nat),
      encFoldChannels (encBlocksLoop mc mult attn b cur).1 (cur, hs) =
        some ((encBlocksLoop mc mult attn b cur).2.2,
          hs ++ (encBlocksLoop mc mult attn b cur).2.1) := by
  intro b
  induction b with
  | zero => intro cur hs; simp [encBlocksLoop, encFoldChannels]
  | succ b ih =>
    intro cur hs
    have hrun : runBlock ((cur, mult * mc) ::
        (if attn then [(mult * mc, mult * mc)] else [])) cur = some (mult * mc) := by
      simp only [runBlock, if_pos rfl]
      exact runBlock_ifPair _ _
    simp only [encBlocksLoop, encFoldChannels, hrun]
    rw [ih]
    simp

theorem encLevelStep_len (mc m : Nat) (wa wc : List Bool) (i : Nat) :
    ∀ (b cur : Nat) (bs1 : List Block) (chs1 : List Nat) (cur1 : Nat),
      encLevelStep mc m wa wc i b cur = some (bs1, chs1, cur1) → chs1.length = b := by
  intro b
  cases b with
  | zero =>
    intro cur bs1 chs1 cur1 h
    simp only [encLevelStep, Option.some.injEq, Prod.mk.injEq] at h
    rw [← h.2.1]
    rfl
  | succ b' =>
    intro cur bs1 chs1 cur1 h
    simp only [encLevelStep] at h
    split at h
    · simp at h
    · rename_i attn ha
      split at h
      · simp at h
      · rename_i cflag hc
        simp only [Option.some.injEq] at h
        have hch : chs1 = (encBlocksLoop mc m attn (Nat.succ b') cur).2.1 := by rw [h]
        rw [hch]
        exact encBlocksLoop_len mc m attn _ _

theorem encLevelStep_sim (mc m : Nat) (wa wc : List Bool) (i : Nat) :
    ∀ (b cur : Nat) (bs1 : List Block) (chs1 : List Nat) (cur1 : Nat),
      encLevelStep mc m wa wc i b cur = some (bs1, chs1, cur1) →
      ∀ hs, encFoldChannels bs1 (cur, hs) = some (cur1, hs ++ chs1) := by
  intro b
  cases b with
  | zero =>
    intro cur bs1 chs1 cur1 h hs
    simp only [encLevelStep, Option.some.injEq, Prod.mk.injEq] at h
    rw [← h.1, ← h.2.1, ← h.2.2]
    simp [encFoldChannels]
  | succ b' =>
    intro cur bs1 chs1 cur1 h hs
    simp only [encLevelStep] at h
    split at h
    · simp at h
    · rename_i attn ha
      split at h
      · simp at h
      · rename_i cflag hc
        simp only [Option.some.injEq] at h
        have hb1 : bs1 = (encBlocksLoop mc m attn (Nat.succ b') cur).1 := by rw [h]
        have hc1 : chs1 = (encBlocksLoop mc m attn (Nat.succ b') cur).2.1 := by rw [h]
        have hu1 : cur1 = (encBlocksLoop mc m attn (Nat.succ b') cur).2.2 := by rw [h]
        rw [hb1, hc1, hu1]
        exact encBlocksLoop_sim mc m attn _ _ hs

theorem encLevelStep_total (mc m : Nat) (wa wc : List Bool) (i : Nat)
    (hwa : i < wa.length) (hwc : i < wc.length) :
    ∀ (b cur : Nat), ∃ (bs1 : List Block) (chs1 : List Nat) (cur1 : Nat),
      encLevelStep mc m wa wc i b cur = some (bs1, chs1, cur1) := by
  intro b
  cases b with
  | zero => intro cur; exact ⟨[], [], cur, rfl⟩
  | succ b' =>
    intro cur
    obtain ⟨attn, ha⟩ := get?_some_of_lt wa i hwa
    obtain ⟨cflag, hc⟩ := get?_some_of_lt wc i hwc
    refine ⟨(encBlocksLoop mc m attn (b' + 1) cur).1, (encBlocksLoop mc m attn (b' + 1) cur).2.1,
      (encBlocksLoop mc m attn (b' + 1) cur).2.2, ?_⟩
    simp only [encLevelStep, ha, hc]

theorem encFoldChannels_down (c : Nat) (hs : List Nat) (P : Prop) [Decidable P] :
    encFoldChannels (if P then ([] : List Block) else [[(c, c)]]) (c, hs) =
      some (c, hs ++ (if P then [] else [c])) := by
  split <;> simp [encFoldChannels, runBlock]

theorem encLevels_sim (mc : Nat) (nb : List Nat) (wa wc : List Bool) :
    ∀ (levels : List Nat) (i cur : Nat) (bs : List Block) (chs : List Nat) (fin : Nat),
      encLevels mc nb wa wc levels i cur = some (bs, chs, fin) →
      ∀ hs, encFoldChannels bs (cur, hs) = some (fin, hs ++ chs) := by
  intro levels
  induction levels with
  | nil =>
    intro i cur bs chs fin h hs
    simp only [encLevels, Option.some.injEq, Prod.mk.injEq] at h
    rw [← h.1, ← h.2.1, ← h.2.2]
    simp [encFoldChannels]
  | cons m rest ih =>
    intro i cur bs chs fin h hs
    simp only [encLevels] at h
    split at h
    · simp at h
    · rename_i b hb
      split at h
      · simp at h
      · rename_i bs1 chs1 cur1 hstep
        split at h
        · simp at h
        · rename_i bs3 chs3 cur3 hd3
          simp only [Option.some.injEq, Prod.mk.injEq] at h
          rw [← h.1, ← h.2.1, ← h.2.2]
          simp only [encFoldChannels_append, encLevelStep_sim mc m wa wc i _ _ _ _ _ hstep,
            encFoldChannels_down, ih _ _ _ _ _ hd3]
          simp [List.append_assoc]

theorem encLevels_len (mc : Nat) (nb : List Nat) (wa wc : List Bool) :
    ∀ (levels : List Nat) (i cur : Nat) (bs : List Block) (chs : List Nat) (fin : Nat),
      encLevels mc nb wa wc levels i cur = some (bs, chs, fin) → levels ≠ [] →
      chs.length + 1 = nbSumFrom nb i levels + levels.length := by
  intro levels
  induction levels with
  | nil => intro i cur bs chs fin h hne; exact absurd rfl hne
  | cons m rest ih =>
    intro i cur bs chs fin h hne
    simp only [encLevels] at h
    split at h
    · simp at h
    · rename_i b hb
      split at h
      · simp at h
      · rename_i bs1 chs1 cur1 hstep
        split at h
        · simp at h
        · rename_i bs3 chs3 cur3 hd3
          simp only [Option.some.injEq, Prod.mk.injEq] at h
          have hlen1 : chs1.length = b := encLevelStep_len mc m wa wc i _ _ _ _ _ hstep
          have hgd : nb.getD i 0 = b := getD_of_get? _ _ _ _ hb
          rw [← h.2.1]
          cases rest with
          | nil =>
            simp only [encLevels, Option.some.injEq, Prod.mk.injEq] at hd3
            rw [← hd3.2.1]
            simp only [List.isEmpty_nil, if_pos, List.append_nil, List.length_append,
              List.length_nil, nbSumFrom, List.length_cons]
            omega
          | cons m2 rest2 =>
            have hih := ih _ _ _ _ _ hd3 (by simp)
            have hgoal : ((chs1 ++ (if (m2 :: rest2 : List Nat).isEmpty then [] else [cur1]))
                ++ chs3).length = chs1.length + 1 + chs3.length := by simp; omega
            rw [hgoal]
            simp only [nbSumFrom] at hih ⊢
            simp only [List.length_cons] at hih ⊢
            omega

theorem encLevels_total (mc : Nat) (nb : List Nat) (wa wc : List Bool) :
    ∀ (levels : List Nat) (i cur : Nat),
      i + levels.length ≤ nb.length → i + levels.length ≤ wa.length →
      i + levels.length ≤ wc.length →
      ∃ (bs : List Block) (chs : List Nat) (fin : Nat),
        encLevels mc nb wa wc levels i cur = some (bs, chs, fin) := by
  intro levels
  induction levels with
  | nil => intro i cur _ _ _; exact ⟨[], [], cur, rfl⟩
  | cons m rest ih =>
    intro i cur hnb hwa hwc
    simp only [List.length_cons] at hnb hwa hwc
    obtain ⟨b, hb⟩ := get?_some_of_lt nb i (by omega)
    obtain ⟨bs1, chs1, cur1, hstep⟩ :=
      encLevelStep_total mc m wa wc i (by omega) (by omega) b cur
    obtain ⟨bs3, chs3, cur3, hd3⟩ := ih (i + 1) cur1 (by omega) (by omega) (by omega)
    exact ⟨bs1 ++ (if rest.isEmpty then [] else [[(cur1, cur1)]]) ++ bs3,
      chs1 ++ (if rest.isEmpty then [] else [cur1]) ++ chs3, cur3, by
        simp only [encLevels, hb, hstep, hd3]⟩

/-! ### Lemmas: connector and sum bookkeeping -/

theorem connectorLevels_total (mc : Nat) (nbc : List Nat) :
    ∀ (levels : List Nat) (i cur : Nat), i + levels.length ≤ nbc.length →
      ∃ r, connectorLevels mc nbc levels i cur = some r := by
  intro levels
  induction levels with
  | nil => intro i cur _; exact ⟨cur, rfl⟩
  | cons m rest ih =>
    intro i cur h
    simp only [List.length_cons] at h
    obtain ⟨b, hb⟩ := get?_some_of_lt nbc i (by omega)
    cases b with
    | zero =>
      obtain ⟨r, hr⟩ := ih (i + 1) cur (by omega)
      exact ⟨r, by simp only [connectorLevels, hb, hr]⟩
    | succ b' =>
      obtain ⟨r, hr⟩ := ih (i + 1) (m * mc) (by omega)
      exact ⟨r, by simp only [connectorLevels, hb, hr]⟩

theorem nbTotal_reverse (nb : List Nat) (pairs : List (Nat × Nat)) :
    nbTotal nb pairs.reverse = nbTotal nb pairs := by
  simp [nbTotal, List.map_reverse, List.sum_reverse]

theorem nbTotal_pyEnum (nb : List Nat) :
    ∀ (ms : List Nat) (i : Nat),
      nbTotal nb (pyEnum i ms) = nbSumFrom nb i ms + ms.length := by
  intro ms
  induction ms with
  | nil => intro i; simp [nbTotal, pyEnum, nbSumFrom]
  | cons m rest ih =>
    intro i
    simp only [pyEnum, nbTotal, List.map_cons, List.sum_cons, nbSumFrom, List.length_cons]
    have := ih (i + 1)
    simp only [nbTotal] at this
    omega

/-! ### Lemmas: `UNetModel2D.build` -/

theorem build_inv (cfg : UNet2DCfg) (B : Build2D) (hb : UNetModel2D.build cfg = some B) :
    ∃ (conOut : Nat) (encBs : List Block) (encChs : List Nat) (encCur : Nat)
      (decBs : List Block) (ps : List Nat) (decCur : Nat) (stackAfter : List Nat),
      connectorLevels cfg.model_channels cfg.num_noattn_blocks_connector
          cfg.channel_mult_connector 0 (cfg.model_channels / 2) = some conOut ∧
      encLevels cfg.model_channels cfg.num_noattn_blocks cfg.with_attn cfg.with_connector
          cfg.channel_mult 0 cfg.model_channels = some (encBs, encChs, encCur) ∧
      decLevels cfg.model_channels cfg.num_noattn_blocks cfg.with_attn cfg.with_connector
          (pyEnum 0 cfg.channel_mult).reverse encCur (cfg.model_channels :: encChs) =
        some (decBs, ps, decCur, stackAfter) ∧
      B = { connectorOutChannels := conOut
            inputBlocks := ([(cfg.input_channels, cfg.model_channels)] : Block) :: encBs
            inputBlockChannels := cfg.model_channels :: encChs
            middleBlock := [(encCur, encCur), (encCur, encCur), (encCur, encCur)]
            outputBlocks := decBs
            popped := ps
            stackAfter := stackAfter
            decCur := decCur
            outNormChannels := decCur
            outConvInChannels := cfg.model_channels
            outConvOutChannels := cfg.output_channels } := by
  simp only [UNetModel2D.build] at hb
  split at hb
  · simp at hb
  · rename_i conOut hcon
    split at hb
    · simp at hb
    · rename_i encBs encChs encCur henc
      split at hb
      · simp at hb
      · rename_i decBs ps decCur stackAfter hdec
        exact ⟨conOut, encBs, encChs, encCur, decBs, ps, decCur, stackAfter, hcon, henc, hdec,
          (Option.some.inj hb).symm⟩

theorem build_forward_spec (cfg : UNet2DCfg) (B : Build2D)
    (hne : cfg.channel_mult ≠ []) (hb : UNetModel2D.build cfg = some B) :
    B.popped = B.inputBlockChannels.reverse ∧ B.stackAfter = [] ∧
    UNetModel2D.forwardCore B cfg.input_channels = some (B.decCur, []) ∧
    B.decCur = cfg.model_channels * cfg.channel_mult.headI ∧
    B.outNormChannels = B.decCur ∧ B.outConvInChannels = cfg.model_channels ∧
    B.outConvOutChannels = cfg.output_channels := by
  obtain ⟨conOut, encBs, encChs, encCur, decBs, ps, decCur, stackAfter,
    hcon, henc, hdec, hB⟩ := build_inv cfg B hb
  have hlen_enc := encLevels_len _ _ _ _ _ _ _ _ _ _ henc hne
  obtain ⟨hstack, hplen⟩ := decLevels_stack _ _ _ _ _ _ _ _ _ _ _ hdec
  have htot : nbTotal cfg.num_noattn_blocks (pyEnum 0 cfg.channel_mult).reverse =
      nbSumFrom cfg.num_noattn_blocks 0 cfg.channel_mult + cfg.channel_mult.length := by
    rw [nbTotal_reverse, nbTotal_pyEnum]
  have hSA : stackAfter = [] := by
    have hlen := congrArg List.length hstack
    simp only [List.length_append, List.length_reverse, List.length_cons] at hlen
    have : stackAfter.length = 0 := by omega
    exact List.eq_nil_of_length_eq_zero this
  have hps : ps = (cfg.model_channels :: encChs).reverse := by
    have h1 : ps.reverse = cfg.model_channels :: encChs := by
      have h0 := hstack
      rw [hSA] at h0
      simpa using h0
    rw [← h1, List.reverse_reverse]
  have hdecCur : decCur = cfg.model_channels * cfg.channel_mult.headI := by
    obtain ⟨m0, rest, hcm⟩ : ∃ m0 rest, cfg.channel_mult = m0 :: rest := by
      cases hcm : cfg.channel_mult with
      | nil => exact absurd hcm hne
      | cons m0 rest => exact ⟨m0, rest, rfl⟩
    rw [hcm] at hdec
    have hshape : (pyEnum 0 (m0 :: rest)).reverse =
        (pyEnum 1 rest).reverse ++ [(0, m0)] := by
      simp [pyEnum, List.reverse_cons]
    rw [hshape] at hdec
    have := decLevels_fin _ _ _ _ _ _ _ _ _ _ _ _ _ hdec
    rw [this, hcm]
    simp
  have hcore : UNetModel2D.forwardCore
      { connectorOutChannels := conOut
        inputBlocks := ([(cfg.input_channels, cfg.model_channels)] : Block) :: encBs
        inputBlockChannels := cfg.model_channels :: encChs
        middleBlock := [(encCur, encCur), (encCur, encCur), (encCur, encCur)]
        outputBlocks := decBs
        popped := ps
        stackAfter := stackAfter
        decCur := decCur
        outNormChannels := decCur
        outConvInChannels := cfg.model_channels
        outConvOutChannels := cfg.output_channels } cfg.input_channels =
      some (decCur, []) := by
    have hfirst : runBlock ([(cfg.input_channels, cfg.model_channels)] : Block)
        cfg.input_channels = some cfg.model_channels := by simp [runBlock]
    have hencsim := encLevels_sim _ _ _ _ _ _ _ _ _ _ henc [cfg.model_channels]
    have hmid : runBlock [(encCur, encCur), (encCur, encCur), (encCur, encCur)] encCur =
        some encCur := by simp [runBlock]
    have hdecsim := decLevels_sim _ _ _ _ _ _ _ _ _ _ _ hdec
    rw [hSA] at hdecsim
    simp only [UNetModel2D.forwardCore, encFoldChannels, hfirst, List.nil_append]
    simp only [List.singleton_append] at hencsim
    simp only [hencsim, hmid, hdecsim]
  subst hB
  refine ⟨hps, hSA, hcore, hdecCur, rfl, rfl, rfl⟩

theorem build_isSome_iff (cfg : UNet2DCfg)
    (hnb : cfg.channel_mult.length ≤ cfg.num_noattn_blocks.length)
    (hcc : cfg.channel_mult_connector.length ≤ cfg.num_noattn_blocks_connector.length) :
    (UNetModel2D.build cfg).isSome ↔
      (cfg.channel_mult.length ≤ cfg.with_attn.length ∧
       cfg.channel_mult.length ≤ cfg.with_connector.length) := by
  constructor
  · intro h
    obtain ⟨B, hB⟩ := Option.isSome_iff_exists.mp h
    obtain ⟨conOut, encBs, encChs, encCur, decBs, ps, decCur, stackAfter,
      hcon, henc, hdec, -⟩ := build_inv cfg B hB
    have hmem := decLevels_mem _ _ _ _ _ _ _ _ _ _ _ hdec
    cases hcm : cfg.channel_mult with
    | nil => simp
    | cons m0 rest =>
      have hget : ∀ i, i < cfg.channel_mult.length →
          (cfg.with_attn.get? i).isSome ∧ (cfg.with_connector.get? i).isSome := by
        intro i hi
        obtain ⟨a, hai⟩ := get?_some_of_lt cfg.channel_mult i hi
        have hmem0 : ((i, a) : Nat × Nat) ∈ (pyEnum 0 cfg.channel_mult).reverse := by
          rw [List.mem_reverse]
          simpa using pyEnum_mem cfg.channel_mult 0 i a hai
        obtain ⟨-, h2, h3⟩ := hmem (i, a) hmem0
        exact ⟨h2, h3⟩
      have hL : 0 < cfg.channel_mult.length := by rw [hcm]; simp
      obtain ⟨h2, h3⟩ := hget (cfg.channel_mult.length - 1) (by omega)
      obtain ⟨a2, ha2⟩ := Option.isSome_iff_exists.mp h2
      obtain ⟨a3, ha3⟩ := Option.isSome_iff_exists.mp h3
      have := lt_of_get?_some _ _ _ ha2
      have := lt_of_get?_some _ _ _ ha3
      rw [← hcm]
      omega
  · rintro ⟨hwa, hwc⟩
    obtain ⟨conOut, hcon⟩ := connectorLevels_total cfg.model_channels
      cfg.num_noattn_blocks_connector cfg.channel_mult_connector 0
      (cfg.model_channels / 2) (by omega)
    obtain ⟨encBs, encChs, encCur, henc⟩ := encLevels_total cfg.model_channels
      cfg.num_noattn_blocks cfg.with_attn cfg.with_connector cfg.channel_mult 0
      cfg.model_channels (by omega) (by omega) (by omega)
    have hmemb : ∀ p ∈ (pyEnum 0 cfg.channel_mult).reverse,
        p.1 < cfg.num_noattn_blocks.length ∧ p.1 < cfg.with_attn.length ∧
          p.1 < cfg.with_connector.length := by
      intro p hp
      rw [List.mem_reverse] at hp
      have := pyEnum_bounds cfg.channel_mult 0 p hp
      omega
    have htotle : nbTotal cfg.num_noattn_blocks (pyEnum 0 cfg.channel_mult).reverse ≤
        (cfg.model_channels :: encChs).length := by
      rw [nbTotal_reverse, nbTotal_pyEnum]
      cases hcm : cfg.channel_mult with
      | nil => simp [nbSumFrom]
      | cons m0 rest =>
        have hlen_enc := encLevels_len _ _ _ _ _ _ _ _ _ _ henc (by rw [hcm]; simp)
        rw [hcm] at hlen_enc
        simp only [List.length_cons] at hlen_enc ⊢
        omega
    obtain ⟨decBs, ps, stackAfter, decCur, hdec⟩ := decLevels_total cfg.model_channels
      cfg.num_noattn_blocks cfg.with_attn cfg.with_connector
      (pyEnum 0 cfg.channel_mult).reverse encCur (cfg.model_channels :: encChs) hmemb htotle
    have : UNetModel2D.build cfg = some
        { connectorOutChannels := conOut
          inputBlocks := ([(cfg.input_channels, cfg.model_channels)] : Block) :: encBs
          inputBlockChannels := cfg.model_channels :: encChs
          middleBlock := [(encCur, encCur), (encCur, encCur), (encCur, encCur)]
          outputBlocks := decBs
          popped := ps
          stackAfter := stackAfter
          decCur := decCur
          outNormChannels := decCur
          outConvInChannels := cfg.model_channels
          outConvOutChannels := cfg.output_channels } := by
      simp only [UNetModel2D.build, hcon, henc, hdec]
    simp [this]

/-! ### Claim C1 -/

/-- Claim C1: for every tower configuration (channel multipliers, block
counts) on which construction succeeds, the sequence of channel counts
appended to `input_block_channels` during encoder construction, reversed,
equals the sequence popped during decoder construction (one pop per decoder
block, `num_noattn_blocks[level] + 1` pops per level); the encoder push
count equals the decoder pop count; and the channel-level forward pass
succeeds through the decoder with the skip stack exactly emptied — i.e.
every `th.cat([h, hs.pop()], dim=1)` produces exactly the channel count
declared as that decoder block's input. -/
theorem skip_channel_stack_lifo (cfg : UNet2DCfg) (B : Build2D)
    (hne : cfg.channel_mult ≠ []) (hb : UNetModel2D.build cfg = some B) :
    B.popped = B.inputBlockChannels.reverse ∧
    B.popped.length = B.inputBlockChannels.length ∧
    ∃ c, UNetModel2D.forwardCore B cfg.input_channels = some (c, []) := by
  obtain ⟨hps, hSA, hcore, -, -, -, -⟩ := build_forward_spec cfg B hne hb
  refine ⟨hps, ?_, B.decCur, hcore⟩
  rw [hps]
  simp

/-- Witness for C1 at `cfgW`. -/
theorem skip_channel_stack_lifo_witness :
    ∃ B, UNetModel2D.build cfgW = some B ∧
      (B.popped = B.inputBlockChannels.reverse ∧
       B.popped.length = B.inputBlockChannels.length ∧
       ∃ c, UNetModel2D.forwardCore B cfgW.input_channels = some (c, [])) := by
  obtain ⟨B, hB⟩ : ∃ B, UNetModel2D.build cfgW = some B := ⟨_, rfl⟩
  exact ⟨B, hB, skip_channel_stack_lifo cfgW B (by decide) hB⟩

/-! ### Claim C5 -/

/-- Claim C5 (counterexample): a configuration whose flag lists are longer
than `channel_mult` — the lengths differ, yet construction succeeds, so a
flag/schedule length mismatch is not always a construction-time error. -/
theorem construction_length_counterexample :
    (UNetModel2D.build cfgLongFlags).isSome = true ∧
    cfgLongFlags.with_attn.length ≠ cfgLongFlags.channel_mult.length ∧
    cfgLongFlags.with_connector.length ≠ cfgLongFlags.channel_mult.length := by
  refine ⟨rfl, by decide, by decide⟩

/-- Claim C5 (amended): given that `num_noattn_blocks` covers every level
of `channel_mult` and the connector block-count list covers every connector
level, construction succeeds iff both `with_attn` and `with_connector` are
at least as long as `channel_mult`; flag lists *shorter* than the schedule
are a fatal construction-time error (`IndexError`), while *longer* flag
lists are accepted with the excess entries silently ignored. -/
theorem construction_length_check (cfg : UNet2DCfg)
    (hnb : cfg.channel_mult.length ≤ cfg.num_noattn_blocks.length)
    (hcc : cfg.channel_mult_connector.length ≤ cfg.num_noattn_blocks_connector.length) :
    (UNetModel2D.build cfg).isSome ↔
      (cfg.channel_mult.length ≤ cfg.with_attn.length ∧
       cfg.channel_mult.length ≤ cfg.with_connector.length) :=
  build_isSome_iff cfg hnb hcc

/-- Witness for the amended C5 at `cfgShortFlags` (a too-short `with_attn`:
the right-hand side is false, so construction fails there). -/
theorem construction_length_check_witness :
    (UNetModel2D.build cfgShortFlags).isSome ↔
      (cfgShortFlags.channel_mult.length ≤ cfgShortFlags.with_attn.length ∧
       cfgShortFlags.channel_mult.length ≤ cfgShortFlags.with_connector.length) :=
  construction_length_check cfgShortFlags (by decide) (by decide)

/-! ### Claim C9 -/

/-- Claim C9: `self.out` normalises over the decoder's final
`current_channel` but its zero-initialised convolution declares
`model_channels` input channels, so the channel-level forward pass through
`self.out` succeeds iff the decoder's final width equals `model_channels`,
i.e. iff `channel_mult[0] = 1`; for any other head multiplier the forward
pass fails at the final projection. -/
theorem out_stage_channel_mismatch (cfg : UNet2DCfg) (B : Build2D)
    (hne : cfg.channel_mult ≠ []) (hmc : 0 < cfg.model_channels)
    (hb : UNetModel2D.build cfg = some B) :
    ((UNetModel2D.forwardChannels B cfg.input_channels).isSome ↔
      cfg.channel_mult.headI = 1) := by
  obtain ⟨-, -, hcore, hdecCur, hnorm, hconvIn, -⟩ := build_forward_spec cfg B hne hb
  simp only [UNetModel2D.forwardChannels, hcore]
  rw [hnorm, if_pos rfl, hconvIn, hdecCur]
  by_cases hm : cfg.model_channels * cfg.channel_mult.headI = cfg.model_channels
  · simp only [if_pos hm, Option.isSome_some, true_iff]
    have h1 : cfg.model_channels * cfg.channel_mult.headI = cfg.model_channels * 1 := by
      simpa using hm
    exact Nat.eq_of_mul_eq_mul_left hmc h1
  · simp only [if_neg hm, Option.isSome_none, Bool.false_eq_true, false_iff]
    intro h1
    exact hm (by rw [h1, Nat.mul_one])

/-- Witness for C9 at `cfgHeadTwo` (`channel_mult[0] = 2`, so the final
stage's channel check fails). -/
theorem out_stage_channel_mismatch_witness :
    ∃ B, UNetModel2D.build cfgHeadTwo = some B ∧
      ((UNetModel2D.forwardChannels B cfgHeadTwo.input_channels).isSome ↔
        cfgHeadTwo.channel_mult.headI = 1) := by
  obtain ⟨B, hB⟩ : ∃ B, UNetModel2D.build cfgHeadTwo = some B := ⟨_, rfl⟩
  exact ⟨B, hB, out_stage_channel_mismatch cfgHeadTwo B (by decide) (by decide) hB⟩

/-! ### Claims C6 and C10: context merging -/

/-- Claim C6: the merged context of `UNetModelVD.forward` is exactly `c0`
when `c1` and `c2` are absent (independent of both mixing ratios);
`c0*w + c1*(1-w)` when only `c1` is present; and, when both are present,
the three-way combination `c0*(1-w-w2) + c1*w + c2*w2`, whose coefficients
sum to 1 — with no renormalisation applied to the result. -/
theorem merge_context_spec (c0 c1 c2 : Tensor) (r r2 r' r2' : ℚ) :
    (mergeContext c0 none none r r2 = c0 ∧
     mergeContext c0 none none r r2 = mergeContext c0 none none r' r2') ∧
    mergeContext c0 (some c1) none r r2 =
      Tensor.add (c0.mulScalar r) (c1.mulScalar (1 - r)) ∧
    (∀ i, (mergeContext c0 (some c1) (some c2) r r2).data i =
      c0.data i * (1 - r - r2) + c1.data i * r + c2.data i * r2) ∧
    (1 - r - r2) + r + r2 = 1 := by
  refine ⟨⟨rfl, rfl⟩, rfl, ?_, by ring⟩
  intro i
  simp only [mergeContext, Tensor.add, Tensor.mulScalar]

/-- Claim C10: supplying `c2` without `c1` silently ignores `c2` and both
mixing ratios: the merged context equals `c0` exactly (the same as when
both are absent), and the merge is a total function — it never raises. -/
theorem merge_context_c2_only (c0 c2 : Tensor) (r r2 : ℚ) :
    mergeContext c0 none (some c2) r r2 = c0 ∧
    mergeContext c0 none (some c2) r r2 = mergeContext c0 none none r r2 :=
  ⟨rfl, rfl⟩

/-! ### Claim C8: the checkpoint wrapper -/

/-- Claim C8: `ResBlock.forward` routes `_forward` through the
checkpointed-recompute wrapper; its value is identical whether the
checkpoint flag is enabled or disabled, and equals `_forward(x, emb)`. -/
theorem resblock_checkpoint_invariant (rb : ResBlock) (x emb : Tensor) (b1 b2 : Bool) :
    ResBlock.forward rb b1 x emb = ResBlock.forward rb b2 x emb ∧
    ResBlock.forward rb b1 x emb = rb.fwd x emb :=
  ⟨rfl, rfl⟩

/-! ### Claim C2: zero-initialised final convolution -/

theorem conv2dK_zero (cin cout : Nat) (w : Nat → Nat → ℤ → ℤ → ℚ) (bias : Nat → ℚ)
    (hw : ∀ a b c d, w a b c d = 0) (hb : ∀ a, bias a = 0) (x : Tensor) :
    ∀ idx, (conv2dK cin cout w bias x).data idx = 0 := by
  intro idx
  rcases idx with _ | ⟨n, _ | ⟨c, _ | ⟨i, _ | ⟨j, rest⟩⟩⟩⟩ <;>
    simp [conv2dK, hw, hb]

theorem Tensor.add_zero_right (x y : Tensor) (hy : ∀ i, y.data i = 0) :
    Tensor.add x y = x := by
  apply Tensor.ext
  · rfl
  · funext i
    simp [Tensor.add, hy]

/-- Claim C2: with the final convolution of `out_layers` having all weights
and bias zero (as `zero_module` produces at initialisation) and the block
not an up/down resampling variant (no block constructed in this file is),
`ResBlock._forward(x, emb)` equals the skip path of the input — for any
input, with or without a time axis, and any embedding: for a 4-d input it is
exactly `skip_connection(x)`, for a 5-d input it is `skip_connection`
applied per-frame (time flattened into batch and restored). -/
theorem resblock_zero_identity (rb : ResBlock) (x emb : Tensor)
    (hw : ∀ a b c d, rb.wOut a b c d = 0) (hb : ∀ a, rb.bOut a = 0)
    (hud : rb.updown = false) :
    ResBlock.fwd rb x emb =
      if x.shape.length = 5
      then unflattenVideo (x.shape.getD 2 1) (rb.skipConnection (flattenVideo x))
      else rb.skipConnection x := by
  have hzero : ∀ (u : Tensor) (i : List ℤ),
      (conv2dK rb.outChannels rb.outChannels rb.wOut rb.bOut u).data i = 0 :=
    fun u i => conv2dK_zero _ _ _ _ hw hb u i
  simp only [ResBlock.fwd, hud, Bool.false_eq_true, if_false]
  split
  · congr 1
    apply Tensor.add_zero_right
    intro i
    split
    · exact hzero _ i
    · exact hzero _ i
  · apply Tensor.add_zero_right
    intro i
    split
    · exact hzero _ i
    · exact hzero _ i

/-- Witness for C2 at a concrete block and `[1, 1, 2, 2]` input. -/
theorem resblock_zero_identity_witness :
    ResBlock.fwd rbW xW embW =
      if xW.shape.length = 5
      then unflattenVideo (xW.shape.getD 2 1) (rbW.skipConnection (flattenVideo xW))
      else rbW.skipConnection xW :=
  resblock_zero_identity rbW xW embW (fun _ _ _ _ => rfl) (fun _ => rfl) rfl

/-! ### Claim C3: order inside a paired unit -/

/-- Claim C3 (counterexample): on a concrete video tensor with a concrete
paired [Stage Block, temporal-attention] unit, the sequential pipeline's
value differs from "temporal attention applied first, then the Stage
Block": the source runs `layer[0]` (the Stage Block) first and `layer[1]`
(the temporal attention) second. -/
theorem paired_order_counterexample :
    TimestepEmbedSequential.fwd [SeqLayer.paired stageBlockEx tempAttnEx] x5Ex none none ≠
      stageBlockEx (tempAttnEx x5Ex) none := by
  intro h
  have hd := congrArg (fun tt => tt.data [0, 0, 0, 0, 0]) h
  simp [TimestepEmbedSequential.fwd, stageBlockEx, tempAttnEx, x5Ex] at hd

/-- Claim C3 (amended): a paired [Stage Block, temporal-attention] unit in
`TimestepEmbedSequential.forward` applies the Stage Block (`layer[0]`) to
the full video tensor first — with the frame-broadcast embedding — and the
temporal-attention sub-stage (`layer[1]`) second. -/
theorem paired_order_amended (fb : Tensor → Option Tensor → Tensor)
    (fa : Tensor → Tensor) (x : Tensor) (emb context : Option Tensor) :
    TimestepEmbedSequential.fwd [SeqLayer.paired fb fa] x emb context =
      fa (fb x (if x.shape.length = 5
                then emb.map (videoBroadcastEmb (x.shape.getD 2 1)) else emb)) := rfl

/-! ### Claim C7: connector pooling and normalisation -/

theorem vdPool_data_5d (h : Tensor) (B C T H W : Nat) (hsh : h.shape = [B, C, T, H, W])
    (b c : ℤ) :
    (vdPool h).data [b, 0, c] =
      (Finset.sum (Finset.range W) fun j =>
        Finset.sum (Finset.range H) fun i =>
          Finset.sum (Finset.range T) fun t =>
            h.data [b, c, (t : ℤ), (i : ℤ), (j : ℤ)]) / ((T : ℚ) * H * W) := by
  have h5 : h.shape.length = 5 := by rw [hsh]; rfl
  simp only [vdPool, h5, if_pos, meanAxis, unsqueeze, hsh]
  simp [List.eraseIdx, List.getD]
  simp only [← Finset.sum_div]
  simp only [div_div]

theorem vdPool_data_4d (h : Tensor) (B C H W : Nat) (hsh : h.shape = [B, C, H, W])
    (b c : ℤ) :
    (vdPool h).data [b, 0, c] =
      (Finset.sum (Finset.range W) fun j =>
        Finset.sum (Finset.range H) fun i =>
          h.data [b, c, (i : ℤ), (j : ℤ)]) / ((H : ℚ) * W) := by
  have h4 : ¬h.shape.length = 5 := by rw [hsh]; simp
  simp only [vdPool, h4, if_neg, meanAxis, unsqueeze, hsh]
  simp [List.eraseIdx, List.getD]
  simp only [← Finset.sum_div]
  simp only [div_div]

theorem divByNorm_unit (v : Tensor) (pid : List ℤ) (nrm : List ℤ → ℚ)
    (hn : nrm pid * nrm pid = sumSqLast v pid) (hnz : nrm pid ≠ 0) :
    sumSqLast (divByNorm v nrm) pid = 1 := by
  have hS : sumSqLast v pid ≠ 0 := hn ▸ mul_ne_zero hnz hnz
  have hstep : ∀ c : ℤ, (divByNorm v nrm).data (pid ++ [c]) =
      v.data (pid ++ [c]) / nrm pid := by
    intro c
    simp [divByNorm, List.dropLast_concat]
  have hmain : sumSqLast (divByNorm v nrm) pid =
      sumSqLast v pid / (nrm pid * nrm pid) := by
    unfold sumSqLast
    rw [show (divByNorm v nrm).shape = v.shape from rfl]
    rw [Finset.sum_div]
    apply Finset.sum_congr rfl
    intro c _
    rw [hstep, div_pow]
    congr 1
    exact pow_two _
  rw [hmain, hn]
  exact div_self hS

/-- Claim C7 (amended): the pooled connector embedding is the spatial/time
mean of the connector output, reduced to one vector per sample (for both a
5-d video-shaped output and a 4-d output), and — for every sample whose
pooled vector is nonzero (norm ≠ 0, `nrm` being the last-axis L2 norm,
characterised by its square) — the normalised vector has unit squared L2
norm along its feature axis.  (At an all-zero pooled vector the norm is 0
and the property fails, so "for any input" needs this nonzero proviso.) -/
theorem connector_pool_normalize (h5 h4 : Tensor) (B C T H W B4 C4 H4 W4 : Nat)
    (nrm5 nrm4 : List ℤ → ℚ) (b5 c5 b4 c4 : ℤ)
    (hsh5 : h5.shape = [B, C, T, H, W]) (hsh4 : h4.shape = [B4, C4, H4, W4])
    (hn5 : nrm5 [b5, 0] * nrm5 [b5, 0] = sumSqLast (vdPool h5) [b5, 0])
    (hz5 : nrm5 [b5, 0] ≠ 0)
    (hn4 : nrm4 [b4, 0] * nrm4 [b4, 0] = sumSqLast (vdPool h4) [b4, 0])
    (hz4 : nrm4 [b4, 0] ≠ 0) :
    ((vdPool h5).data [b5, 0, c5] =
        (Finset.sum (Finset.range W) fun j =>
          Finset.sum (Finset.range H) fun i =>
            Finset.sum (Finset.range T) fun t =>
              h5.data [b5, c5, (t : ℤ), (i : ℤ), (j : ℤ)]) / ((T : ℚ) * H * W) ∧
      sumSqLast (divByNorm (vdPool h5) nrm5) [b5, 0] = 1) ∧
    ((vdPool h4).data [b4, 0, c4] =
        (Finset.sum (Finset.range W4) fun j =>
          Finset.sum (Finset.range H4) fun i =>
            h4.data [b4, c4, (i : ℤ), (j : ℤ)]) / ((H4 : ℚ) * W4) ∧
      sumSqLast (divByNorm (vdPool h4) nrm4) [b4, 0] = 1) :=
  ⟨⟨vdPool_data_5d h5 B C T H W hsh5 b5 c5, divByNorm_unit _ _ _ hn5 hz5⟩,
   ⟨vdPool_data_4d h4 B4 C4 H4 W4 hsh4 b4 c4, divByNorm_unit _ _ _ hn4 hz4⟩⟩

/-- Claim C7 (counterexample): at the all-zero input the pooled vector's
squared norm is 0, the norm itself (`ratSqrt` of it) is 0, and the
"normalised" vector of source lines 1131-1136 has squared last-axis norm
0 — not 1 — so the unit-norm property does not hold for *any* input. -/
theorem connector_pool_counterexample :
    sumSqLast (vdPool zeroT) [0, 0] = 0 ∧
    ratSqrt (sumSqLast (vdPool zeroT) [0, 0]) = 0 ∧
    sumSqLast (vdPoolNormalize zeroT) [0, 0] = 0 ∧ (0 : ℚ) ≠ 1 := by
  have hz : ∀ idx, (vdPool zeroT).data idx = 0 := by
    intro idx
    simp [vdPool, zeroT, meanAxis, unsqueeze]
  have h1 : sumSqLast (vdPool zeroT) [0, 0] = 0 := by
    simp [sumSqLast, hz]
  have h2 : ratSqrt 0 = 0 := by simp [ratSqrt]
  have h3 : sumSqLast (vdPoolNormalize zeroT) [0, 0] = 0 := by
    simp [sumSqLast, vdPoolNormalize, divByNorm, hz]
  refine ⟨h1, ?_, h3, by norm_num⟩
  rw [h1]
  exact h2

/-- Witness for the amended C7 at all-ones inputs with norm value 1. -/
theorem connector_pool_normalize_witness :
    ((vdPool onesT5).data [0, 0, 0] =
        (Finset.sum (Finset.range 1) fun j =>
          Finset.sum (Finset.range 1) fun i =>
            Finset.sum (Finset.range 1) fun t =>
              onesT5.data [0, 0, (t : ℤ), (i : ℤ), (j : ℤ)]) / ((1 : ℚ) * 1 * 1) ∧
      sumSqLast (divByNorm (vdPool onesT5) fun _ => 1) [0, 0] = 1) ∧
    ((vdPool onesT4).data [0, 0, 0] =
        (Finset.sum (Finset.range 1) fun j =>
          Finset.sum (Finset.range 1) fun i =>
            onesT4.data [0, 0, (i : ℤ), (j : ℤ)]) / ((1 : ℚ) * 1) ∧
      sumSqLast (divByNorm (vdPool onesT4) fun _ => 1) [0, 0] = 1) := by
  have hz5 : ∀ idx, (vdPool onesT5).data idx = 1 := by
    intro idx
    simp [vdPool, onesT5, meanAxis, unsqueeze]
  have hz4 : ∀ idx, (vdPool onesT4).data idx = 1 := by
    intro idx
    simp [vdPool, onesT4, meanAxis, unsqueeze]
  have hshp5 : (vdPool onesT5).shape = [1, 1, 1] := by rfl
  have hshp4 : (vdPool onesT4).shape = [1, 1, 1] := by rfl
  have hn5 : (1 : ℚ) * 1 = sumSqLast (vdPool onesT5) [0, 0] := by
    simp [sumSqLast, hshp5, hz5]
  have hn4 : (1 : ℚ) * 1 = sumSqLast (vdPool onesT4) [0, 0] := by
    simp [sumSqLast, hshp4, hz4]
  exact connector_pool_normalize onesT5 onesT4 1 1 1 1 1 1 1 1 1
    (fun _ => 1) (fun _ => 1) 0 0 0 0 rfl rfl hn5 (by norm_num) hn4 (by norm_num)

/-! ### Claim C4: unrecognised modality tags -/

/-- Claim C4 (counterexample): the final per-modality output projection
loop (source lines 1214-1228) has no unknown-tag branch: on the batch
`["image", "bogus"]` it raises nothing and silently appends the previous
sample's output for the unrecognised sample. -/
theorem vd_output_stage_counterexample :
    vdOutputStage vdModelEx [zeroT, zeroT] ["image", "bogus"] =
      Except.ok [zeroT, zeroT] := by
  rfl

theorem bind_ok_inv {ε α β : Type} (a : Except ε α) (f : α → Except ε β) (b : β)
    (h : a >>= f = Except.ok b) : ∃ a', a = Except.ok a' ∧ f a' = Except.ok b := by
  cases a with
  | error e => simp [Bind.bind, Except.bind] at h
  | ok a' => exact ⟨a', rfl, by simpa [Bind.bind, Except.bind] using h⟩

theorem mainLoopSamples_bad (fI fT fA : Tensor → Tensor → Tensor → Tensor)
    (embI embT embA : Tensor) (ctxList : List Tensor) :
    ∀ (tys : List String) (i : Nat) (hs : List Tensor),
      (∃ t ∈ tys, t ≠ "audio" ∧ t ≠ "video" ∧ t ≠ "image" ∧ t ≠ "text") →
      ∀ out, mainLoopSamples fI fT fA embI embT embA ctxList i hs tys ≠ Except.ok out := by
  intro tys
  induction tys with
  | nil =>
    intro i hs hbad out
    simp at hbad
  | cons ty tys ih =>
    intro i hs hbad out heq
    cases hs with
    | nil => simp [mainLoopSamples] at heq
    | cons h hs =>
      rcases hbad with ⟨t, ht, hbt⟩
      rcases List.mem_cons.mp ht with rfl | htl
      · obtain ⟨h1, h2, h3, h4⟩ := hbt
        simp only [mainLoopSamples, if_neg h1, if_neg (not_or.mpr ⟨h2, h3⟩), if_neg h4] at heq
        simp at heq
      · simp only [mainLoopSamples] at heq
        split at heq
        · simp at heq
        · split at heq
          · simp at heq
          · rename_i rest hrest
            exact ih (i + 1) hs ⟨t, htl, hbt⟩ rest hrest

/-- Claim C4 (amended): an unrecognised modality tag anywhere in `xtype`
makes `UNetModelVD.forward` raise — at the first dispatch loop the sample
reaches (the connector / encoder loops when nonempty, at latest the
bottleneck dispatch, which always runs) — and the forward pass never
returns an output list; the final per-modality projection loop itself,
however, has no unknown-tag error branch (see the counterexample). -/
theorem vd_bad_modality_raises (m : VDModel) (x : List Tensor) (ts c0 : Tensor)
    (c1 c2 : Option Tensor) (xtype : List String) (r r2 : ℚ)
    (hbad : ∃ t ∈ xtype, t ≠ "audio" ∧ t ≠ "video" ∧ t ≠ "image" ∧ t ≠ "text") :
    ∀ out, UNetModelVD.forward m x ts c0 c1 c2 xtype r r2 ≠ Except.ok out := by
  intro out heq
  simp only [UNetModelVD.forward] at heq
  obtain ⟨x1, hx1, heq⟩ := bind_ok_inv _ _ _ heq
  obtain ⟨x2, hx2, heq⟩ := bind_ok_inv _ _ _ heq
  obtain ⟨x3, hx3, heq⟩ := bind_ok_inv _ _ _ heq
  obtain ⟨x4, hx4, heq⟩ := bind_ok_inv _ _ _ heq
  exact mainLoopSamples_bad _ _ _ _ _ _ _ xtype 0 x3.1 hbad x4 hx4

/-- Witness for the amended C4: a one-sample batch tagged `"bogus"` never
yields an output list. -/
theorem vd_bad_modality_raises_witness :
    UNetModelVD.forward vdModelEx [zeroT] zeroT zeroT none none ["bogus"] 0 0 ≠
      Except.ok [] :=
  vd_bad_modality_raises vdModelEx [zeroT] zeroT zeroT none none ["bogus"] 0 0
    ⟨"bogus", by simp, by decide, by decide, by decide, by decide⟩ []
